import Mathlib

/-!
Verification of the LuaCATS-annotation to TypeScript-declaration generator
(`scripts/generate-api-types.js`).  JavaScript strings are modelled as
`List Char`; each JS function is translated to a Lean function of the same
name.  The mutually recursive type translator (`convertLuaTypeToTS`,
`parseFunType`, `convertLuaAliasToTS`) is modelled with an explicit fuel
parameter (the JS functions recurse without a syntactic bound); a theorem
below shows the canonical fuel is always sufficient.
-/

abbrev Chars := List Char

def str (s : String) : Chars := s.data

/-- The character set of JavaScript `\s` (also used by `String.prototype.trim`). -/
def jsWhitespace (c : Char) : Bool :=
  c = ' ' || c = '\t' || c = '\n' || c = '\r' || c = '\x0b' || c = '\x0c' ||
  c = '\u00a0' || c = '\u1680' ||
  ('\u2000' ≤ c && c ≤ '\u200a') ||
  c = '\u2028' || c = '\u2029' || c = '\u202f' || c = '\u205f' ||
  c = '\u3000' || c = '\ufeff'

/-- JavaScript `\w`. -/
def jsWordChar (c : Char) : Bool :=
  ('a' ≤ c && c ≤ 'z') || ('A' ≤ c && c ≤ 'Z') || ('0' ≤ c && c ≤ '9') || c = '_'

/-- Characters matched by an (un-flagged) JavaScript `.`. -/
def jsDotChar (c : Char) : Bool :=
  !(c = '\n' || c = '\r' || c = '\u2028' || c = '\u2029')

def isUpperAZ (c : Char) : Bool := 'A' ≤ c && c ≤ 'Z'
def isLowerAZ (c : Char) : Bool := 'a' ≤ c && c ≤ 'z'
/-- JavaScript `[a-z_]`. -/
def isLowerUnd (c : Char) : Bool := isLowerAZ c || c = '_'

/-- JavaScript `String.prototype.trim`. -/
def trim (s : Chars) : Chars :=
  ((s.dropWhile jsWhitespace).reverse.dropWhile jsWhitespace).reverse

def hasPre (p s : Chars) : Bool := p.isPrefixOf s
def hasSuf (p s : Chars) : Bool := p.isSuffixOf s

/-- `s.indexOf(pat)` for a substring pattern (first occurrence). -/
def subIdx (pat : Chars) : Chars → Option Nat
  | [] => if pat = [] then some 0 else none
  | c :: cs => if pat.isPrefixOf (c :: cs) then some 0 else (subIdx pat cs).map (· + 1)

def containsSub (s pat : Chars) : Bool := (subIdx pat s).isSome

/-- `s.indexOf(c)` for a single character. -/
def charIdx (c : Char) : Chars → Option Nat
  | [] => none
  | a :: l => if a = c then some 0 else (charIdx c l).map (· + 1)

/-- `s.slice(a, b)` for `0 ≤ a ≤ b` (JS slice with nonnegative indices). -/
def sliceN (a b : Nat) (s : Chars) : Chars := (s.drop a).take (b - a)

def joinSep (sep : Chars) : List Chars → Chars
  | [] => []
  | [x] => x
  | x :: y :: rest => x ++ sep ++ joinSep sep (y :: rest)

/-- `[...new Set(xs)]`: duplicate elimination keeping first occurrences. -/
def dedupFirstAux (seen : List Chars) : List Chars → List Chars
  | [] => []
  | x :: xs => if x ∈ seen then dedupFirstAux seen xs
               else x :: dedupFirstAux (x :: seen) xs

def dedupFirst (xs : List Chars) : List Chars := dedupFirstAux [] xs

def isOpenDelim (c : Char) : Bool := c = '(' || c = '[' || c = '\x7b' || c = '<'
def isCloseDelim (c : Char) : Bool := c = ')' || c = ']' || c = '\x7d' || c = '>'

/-- The loop of `splitUnion` (depth-aware split on `|`); `depth` is an
integer because the JS counter may go negative. -/
def splitUnionGo : Chars → Int → Chars → List Chars
  | [], _, cur => if trim cur = [] then [] else [trim cur]
  | c :: cs, depth, cur =>
    if isOpenDelim c then splitUnionGo cs (depth + 1) (cur ++ [c])
    else if isCloseDelim c then splitUnionGo cs (depth - 1) (cur ++ [c])
    else if c = '|' && depth = 0 then trim cur :: splitUnionGo cs depth []
    else splitUnionGo cs depth (cur ++ [c])

def splitUnion (t : Chars) : List Chars := splitUnionGo t 0 []

/-- The loop of `splitByComma` (depth-aware split on `,`). -/
def splitCommaGo : Chars → Int → Chars → List Chars
  | [], _, cur => if trim cur = [] then [] else [trim cur]
  | c :: cs, depth, cur =>
    if isOpenDelim c then splitCommaGo cs (depth + 1) (cur ++ [c])
    else if isCloseDelim c then splitCommaGo cs (depth - 1) (cur ++ [c])
    else if c = ',' && depth = 0 then trim cur :: splitCommaGo cs depth []
    else splitCommaGo cs depth (cur ++ [c])

def splitByComma (t : Chars) : List Chars := splitCommaGo t 0 []

/-- `findMatchingParen(str, start)`: scan from `start`, returning the index at
which the running parenthesis depth becomes zero (after the update), `none`
standing for JS `-1`. -/
def findMatchingParenGo : Chars → Nat → Int → Option Nat
  | [], _, _ => none
  | c :: cs, i, depth =>
    let d1 : Int := if c = '(' then depth + 1 else depth
    let d2 : Int := if c = ')' then d1 - 1 else d1
    if d2 = 0 then some i else findMatchingParenGo cs (i + 1) d2

def findMatchingParen (s : Chars) (start : Nat) : Option Nat :=
  findMatchingParenGo (s.drop start) start 0

/-- Inline-comment stripping at the head of `convertLuaTypeToTS`:
cut at `" --"`, trim, then cut at `"  #"`, trim. -/
def stripComments (s : Chars) : Chars :=
  let s1 := match subIdx (str " --") s with
    | some i => trim (s.take i)
    | none => s
  match subIdx (str "  #") s1 with
  | some i => trim (s1.take i)
  | none => s1

/-- `luaType.replace(/\|\s*nil$/, '')`: remove everything from the first `|`
that is followed only by whitespace and a final `nil`. -/
def stripBarNil : Chars → Chars
  | [] => []
  | c :: cs =>
    if c = '|' && cs.dropWhile jsWhitespace = str "nil" then []
    else c :: stripBarNil cs

/-- First index of the pattern `/ [A-Z][a-z]/` (space, capital, lowercase). -/
def descIdx : Chars → Option Nat
  | c1 :: c2 :: c3 :: rest =>
    if c1 = ' ' && isUpperAZ c2 && isLowerAZ c3 then some 0
    else (descIdx (c2 :: c3 :: rest)).map (· + 1)
  | _ => none

/-- A parameter produced by `parseParams` (`isVararg` is set by the source
but never read afterwards). -/
structure FunParam where
  name : Chars
  type : Chars
  optional : Bool
  isVararg : Bool
deriving Repr, DecidableEq

def parseParams (paramsStr : Chars) : List FunParam :=
  if trim paramsStr = [] then [] else
  (splitByComma paramsStr).filterMap (fun part =>
    let trimmed := trim part
    if trimmed = [] then none
    else if hasPre (str "...") trimmed then
      match charIdx ':' trimmed with
      | some ci => some ⟨str "...args", trim (trimmed.drop (ci + 1)) ++ str "[]", false, true⟩
      | none => some ⟨str "...args", str "any[]", false, true⟩
    else
      match charIdx ':' trimmed with
      | some ci =>
        let name0 := trim (trimmed.take ci)
        let type0 := trim (trimmed.drop (ci + 1))
        let opt := hasSuf (str "?") name0 || hasSuf (str "?") type0
        let name1 := if hasSuf (str "?") name0 then name0.dropLast else name0
        let type1 := if hasSuf (str "?") type0 then type0.dropLast else type0
        some ⟨name1, type1, opt, false⟩
      | none => some ⟨trimmed, str "any", false, false⟩)

def reservedParamWords : List Chars :=
  [str "break", str "case", str "catch", str "class", str "const", str "continue",
   str "debugger", str "default", str "delete", str "do", str "else", str "enum",
   str "export", str "extends", str "false", str "finally", str "for", str "function",
   str "if", str "import", str "in", str "instanceof", str "new", str "null",
   str "return", str "super", str "switch", str "this", str "throw", str "true",
   str "try", str "typeof", str "var", str "void", str "while", str "with", str "yield"]

def sanitizeParamName (name : Chars) : Chars :=
  if name ∈ reservedParamWords then '_' :: name else name

/-- `mapM` over `Option`, written out for easy induction. -/
def optMap (f : α → Option β) : List α → Option (List β)
  | [] => some []
  | x :: xs => (f x).bind fun y => (optMap f xs).map (y :: ·)

/-- How `parseFunType` renders one parsed parameter (`conv` is the
type-translation callback; `none` means the callback ran out of fuel). -/
def renderParam (conv : Chars → Option Chars) (p : FunParam) : Option Chars :=
  if p.name = str "self" then some (str "this: " ++ p.type)
  else (conv p.type).map (fun ts =>
    sanitizeParamName p.name ++ (if p.optional then str "?" else []) ++ str ": " ++ ts)

/-- The return-clause handling of `parseFunType`: `rest` is the (trimmed) text
after the closing parenthesis.  Strips a `" --"` comment, cuts at the first
`/ [A-Z][a-z]/`, then either builds a `LuaMultiReturn` tuple or translates
the single type. -/
def pftRet (conv : Chars → Option Chars) (rest : Chars) : Option Chars :=
  if hasPre (str ":") rest then
    let r0 := trim (rest.drop 1)
    let r1 := match subIdx (str " --") r0 with
      | some i => trim (r0.take i)
      | none => r0
    let r2 := match descIdx r1 with
      | some i => trim (r1.take i)
      | none => r1
    let rparts := splitByComma r2
    if rparts.length > 1 then
      (optMap (fun q => conv (trim q)) rparts).map
        (fun rs => str "LuaMultiReturn<[" ++ joinSep (str ", ") rs ++ str "]>")
    else conv r2
  else some (str "void")

/-- Body of `parseFunType`, parameterised by the type-translation callback. -/
def pftBody (conv : Chars → Option Chars) (luaType : Chars) : Option Chars :=
  match charIdx '(' luaType with
  | none => some (str "(...args: any[]) => any")
  | some startParen =>
    match findMatchingParen luaType startParen with
    | none => some (str "(...args: any[]) => any")
    | some endParen =>
      let paramsStr := sliceN (startParen + 1) endParen luaType
      let rest := trim (luaType.drop (endParen + 1))
      (pftRet conv rest).bind fun returnType =>
      let params := parseParams paramsStr
      (optMap (renderParam conv) params).map fun tsParams =>
      let noSelfHead : Bool := match params with
        | [] => true
        | p :: _ => decide (p.name ≠ str "self")
      let fullParams := if noSelfHead then str "this: void" :: tsParams else tsParams
      str "(" ++ joinSep (str ", ") fullParams ++ str ") => " ++ returnType

/-- The exact-keyword primitive table (rules 4 of the translator). -/
def primitiveMap (t : Chars) : Option Chars :=
  if t = str "number" || t = str "integer" then some (str "number")
  else if t = str "string" then some (str "string")
  else if t = str "boolean" then some (str "boolean")
  else if t = str "any" then some (str "any")
  else if t = str "userdata" then some (str "unknown")
  else if t = str "table" then some (str "object")
  else if t = str "function" then some (str "(...args: any[]) => any")
  else none

/-- The structured branches after the primitive table: optional suffix,
union, tuple, array, `table` generic, function type, passthrough. -/
def convertTail (conv pft : Chars → Option Chars) (t : Chars) : Option Chars :=
  if hasSuf (str "?") t && !(t.contains '|') then
    (conv t.dropLast).map (· ++ str " | undefined")
  else if t.contains '|' && (splitUnion t).length > 1 then
    (optMap (fun p => conv (trim p)) (splitUnion t)).map
      (fun rs => joinSep (str " | ") (dedupFirst rs))
  else if hasPre (str "(") t && hasSuf (str ")") t then
    let inner := (t.drop 1).dropLast
    let parts := splitByComma inner
    if parts.length > 1 then
      (optMap (fun q => conv (trim q)) parts).map
        (fun rs => str "LuaMultiReturn<[" ++ joinSep (str ", ") rs ++ str "]>")
    else conv inner
  else if hasSuf (str "[]") t && t.dropLast.dropLast ≠ [] &&
          (t.dropLast.dropLast).all jsDotChar then
    (conv (t.dropLast.dropLast)).map (· ++ str "[]")
  else if hasPre (str "table<") t && hasSuf (str ">") t &&
          (splitByComma ((t.drop 6).dropLast)).length = 2 then
    match splitByComma ((t.drop 6).dropLast) with
    | [a, b] => (conv (trim a)).bind fun ra => (conv (trim b)).map fun rb =>
        str "Record<" ++ ra ++ str ", " ++ rb ++ str ">"
    | _ => some t
  else if hasPre (str "fun(") t || hasPre (str "fun ") t then pft t
  else some t

/-- The branch chain of `convertLuaTypeToTS`, operating on the already
trimmed and comment-stripped value. -/
def convertCore (conv pft : Chars → Option Chars) (t : Chars) : Option Chars :=
  if t = [] then some (str "void")
  else if t = str "nil" then some (str "void")
  else if hasSuf (str "| nil") t || hasSuf (str "|nil") t then
    (conv (trim (stripBarNil t))).map (· ++ str " | null")
  else match primitiveMap t with
    | some r => some r
    | none => convertTail conv pft t

/-- Body of `convertLuaTypeToTS`: strip the trailing comment forms, then
run the branch chain. -/
def convertBody (conv pft : Chars → Option Chars) (luaType0 : Chars) : Option Chars :=
  convertCore conv pft (stripComments (trim luaType0))

/-- Object-literal field rendering inside `convertLuaAliasToTS`
(parts without a colon are skipped). -/
def aliasFields (conv : Chars → Option Chars) : List Chars → Option (List Chars)
  | [] => some []
  | part :: ps =>
    match charIdx ':' part with
    | some ci =>
      (conv (trim (part.drop (ci + 1)))).bind fun ft =>
      (aliasFields conv ps).map ((trim (part.take ci) ++ str ": " ++ ft) :: ·)
    | none => aliasFields conv ps

/-- Body of `convertLuaAliasToTS`, parameterised by the recursive callbacks. -/
def aliasBody (conv pft : Chars → Option Chars) (luaType0 : Chars) : Option Chars :=
  let t := trim luaType0
  if hasPre (str "\x7b") t && hasSuf (str "\x7d") t then
    let inner := trim ((t.drop 1).dropLast)
    if inner = [] then some (str "\x7b\x7d")
    else (aliasFields conv (splitByComma inner)).map
      (fun fs => str "\x7b " ++ joinSep (str "; ") fs ++ str " \x7d")
  else if t.contains '|' && containsSub t (str "fun(") then
    (optMap (fun p =>
        let trimmed := trim p
        if hasPre (str "fun(") trimmed || hasPre (str "fun ") trimmed then
          (pft trimmed).map (fun r => str "(" ++ r ++ str ")")
        else conv trimmed) (splitUnion t)).map
      (fun rs => joinSep (str " | ") (dedupFirst rs))
  else conv t

/-- Fuel-indexed `convertLuaTypeToTS` (`none` = fuel exhausted). -/
def convertF : Nat → Chars → Option Chars
  | 0, _ => none
  | k + 1, s => convertBody (convertF k) (pftBody (convertF k)) s

/-- Fuel-indexed `parseFunType`. -/
def parseFunTypeF : Nat → Chars → Option Chars
  | 0, _ => none
  | k + 1, s => pftBody (convertF k) s

/-- Fuel-indexed `convertLuaAliasToTS`. -/
def convertLuaAliasToTSF : Nat → Chars → Option Chars
  | 0, _ => none
  | k + 1, s => aliasBody (convertF k) (pftBody (convertF k)) s

/-- `convertLuaTypeToTS` with its canonical (always sufficient) fuel. -/
def convertLuaTypeToTS (s : Chars) : Chars := (convertF (2 * s.length + 2) s).getD []

/-- `parseFunType` with its canonical fuel. -/
def parseFunType (s : Chars) : Chars := (parseFunTypeF (2 * s.length + 1) s).getD []

/-- `convertLuaAliasToTS` with its canonical fuel. -/
def convertLuaAliasToTS (s : Chars) : Chars := (convertLuaAliasToTSF (2 * s.length + 3) s).getD []

/-! ## Annotation-file parsing (`parseApiFile`) -/

structure MethodField where
  name : Chars
  type : Chars
  description : Option Chars
  isMethod : Bool
deriving Repr, DecidableEq

structure DataField where
  name : Chars
  type : Chars
  description : Option Chars
  optional : Bool
deriving Repr, DecidableEq

structure IndexSignature where
  keyType : Chars
  valueType : Chars
deriving Repr, DecidableEq

structure ParsedClass where
  name : Chars
  fields : List MethodField
  dataFields : List DataField
  indexSignatures : List IndexSignature
deriving Repr, DecidableEq

structure PendingParam where
  name : Chars
  type : Chars
  optional : Bool
deriving Repr, DecidableEq

structure AliasEntry where
  name : Chars
  type : Chars
deriving Repr, DecidableEq

/-- The mutable context of the `parseApiFile` loop. -/
structure ParseState where
  classes : List (Chars × ParsedClass)
  aliases : List (Chars × AliasEntry)
  currentClass : Option Chars
  currentDescription : List Chars
  detectedMainExport : Option Chars
  pendingParams : List PendingParam
  pendingReturn : Option Chars
deriving Repr, DecidableEq

/-- What `parseApiFile` returns (insertion-ordered maps modelled as
association lists, as JS `Map` preserves insertion order). -/
structure ParseResult where
  classes : List (Chars × ParsedClass)
  aliases : List (Chars × AliasEntry)
  detectedMainExport : Option Chars
deriving Repr, DecidableEq

def mapHas (m : List (Chars × α)) (k : Chars) : Bool := m.any (·.1 = k)

def mapGet (m : List (Chars × α)) (k : Chars) : Option α :=
  (m.find? (·.1 = k)).map (·.2)

/-- JS `Map.set`: overwrite in place, else append. -/
def mapSet : List (Chars × α) → Chars → α → List (Chars × α)
  | [], k, v => [(k, v)]
  | (k0, v0) :: rest, k, v =>
    if k0 = k then (k, v) :: rest else (k0, v0) :: mapSet rest k v

/-- Mutation of the entry `classes.get(k)` (present by construction
whenever the source dereferences it). -/
def mapUpdate (f : α → α) : List (Chars × α) → Chars → List (Chars × α)
  | [], _ => []
  | (k0, v0) :: rest, k =>
    if k0 = k then (k0, f v0) :: rest else (k0, v0) :: mapUpdate f rest k

def ensureClass (m : List (Chars × ParsedClass)) (name : Chars) : List (Chars × ParsedClass) :=
  if mapHas m name then m else m ++ [(name, ⟨name, [], [], []⟩)]

/-- JS `String.prototype.split` with a one-character separator. -/
def splitChar (sep : Char) : Chars → List Chars
  | [] => [[]]
  | c :: cs =>
    if c = sep then [] :: splitChar sep cs
    else match splitChar sep cs with
      | [] => [[c]]
      | p :: ps => (c :: p) :: ps

/-- `/^function\s+([\w.]+)\.(\w+)\s*\(([^)]*)\)/` → (classPath, methodName, paramsStr). -/
def matchFuncDecl (trimmed : Chars) : Option (Chars × Chars × Chars) :=
  if hasPre (str "function") trimmed then
    let rest1 := trimmed.drop 8
    if rest1.takeWhile jsWhitespace = [] then none else
    let rest2 := rest1.dropWhile jsWhitespace
    let R := rest2.takeWhile (fun c => jsWordChar c || c = '.')
    let after := rest2.dropWhile (fun c => jsWordChar c || c = '.')
    let methodName := (R.reverse.takeWhile jsWordChar).reverse
    if methodName = [] then none else
    if R.length < methodName.length + 2 then none else
    let classPath := R.take (R.length - methodName.length - 1)
    let afterWs := after.dropWhile jsWhitespace
    if hasPre (str "(") afterWs then
      let inParen := afterWs.drop 1
      if inParen.any (· = ')') then
        some (classPath, methodName, inParen.takeWhile (· ≠ ')'))
      else none
    else none
  else none

/-- `/^function\s+(\w+):(\w+)\s*\(([^)]*)\)/` → (className, methodName, paramsStr). -/
def matchFuncColon (trimmed : Chars) : Option (Chars × Chars × Chars) :=
  if hasPre (str "function") trimmed then
    let rest1 := trimmed.drop 8
    if rest1.takeWhile jsWhitespace = [] then none else
    let rest2 := rest1.dropWhile jsWhitespace
    let className := rest2.takeWhile jsWordChar
    if className = [] then none else
    let r3 := rest2.drop className.length
    if hasPre (str ":") r3 then
      let methodName := (r3.drop 1).takeWhile jsWordChar
      if methodName = [] then none else
      let r4 := (r3.drop 1).drop methodName.length
      let afterWs := r4.dropWhile jsWhitespace
      if hasPre (str "(") afterWs then
        let inParen := afterWs.drop 1
        if inParen.any (· = ')') then
          some (className, methodName, inParen.takeWhile (· ≠ ')'))
        else none
      else none
    else none
  else none

/-- `/^(\w+)\.(\w+)\s*=\s*\{\s*\}$/` → (parentClassName, fieldName). -/
def matchSubclassAssign (trimmed : Chars) : Option (Chars × Chars) :=
  let A := trimmed.takeWhile jsWordChar
  if A = [] then none else
  let r1 := trimmed.drop A.length
  if hasPre (str ".") r1 then
    let B := (r1.drop 1).takeWhile jsWordChar
    if B = [] then none else
    let r2 := (r1.drop 1).drop B.length
    let r3 := r2.dropWhile jsWhitespace
    if hasPre (str "=") r3 then
      let r4 := (r3.drop 1).dropWhile jsWhitespace
      if hasPre (str "\x7b") r4 then
        let r5 := (r4.drop 1).dropWhile jsWhitespace
        if r5 = str "\x7d" then some (A, B) else none
      else none
    else none
  else none

/-- The `(?:\s+(.*))?$` tail of the `@param` pattern: either nothing follows,
or a nonempty whitespace run followed by `.`-matchable text to the end. -/
def tailOptOk (tail : Chars) : Bool :=
  tail = [] || (List.range tail.length).any (fun k =>
    (tail.take (k + 1)).all jsWhitespace && (tail.drop (k + 1)).all jsDotChar)

/-- The `\s+(.+)$` tail shared by `@alias`/`@return`/`@field`: `w` is the
maximal whitespace run, `body` the rest.  When `body` is empty the `.+`
backtracks into the last whitespace character. -/
def dotTail (w body : Chars) : Option Chars :=
  if body ≠ [] then (if body.all jsDotChar then some body else none)
  else if w.length ≥ 2 then
    match w.getLast? with
    | some c => if jsDotChar c then some [c] else none
    | none => none
  else none

/-- `/^@type\s+(\w+)/`. -/
def matchAtType (lc : Chars) : Option Chars :=
  if hasPre (str "@type") lc then
    let r := lc.drop 5
    if r.takeWhile jsWhitespace = [] then none else
    let w := (r.dropWhile jsWhitespace).takeWhile jsWordChar
    if w = [] then none else some w
  else none

/-- `/^@class\s+(\w+)/`. -/
def matchAtClass (lc : Chars) : Option Chars :=
  if hasPre (str "@class") lc then
    let r := lc.drop 6
    if r.takeWhile jsWhitespace = [] then none else
    let w := (r.dropWhile jsWhitespace).takeWhile jsWordChar
    if w = [] then none else some w
  else none

/-- `/^@alias\s+(\w+)\s+(.+)$/` → (name, body). -/
def matchAtAlias (lc : Chars) : Option (Chars × Chars) :=
  if hasPre (str "@alias") lc then
    let r := lc.drop 6
    if r.takeWhile jsWhitespace = [] then none else
    let r2 := r.dropWhile jsWhitespace
    let name := r2.takeWhile jsWordChar
    if name = [] then none else
    let r3 := r2.drop name.length
    let w2 := r3.takeWhile jsWhitespace
    if w2 = [] then none else
    match dotTail w2 (r3.dropWhile jsWhitespace) with
    | some body => some (name, body)
    | none => none
  else none

/-- `/^@param\s+(\w+\??)\s+(\S+)(?:\s+(.*))?$/` → (name-with-?, type). -/
def matchAtParam (lc : Chars) : Option (Chars × Chars) :=
  if hasPre (str "@param") lc then
    let r := lc.drop 6
    if r.takeWhile jsWhitespace = [] then none else
    let r2 := r.dropWhile jsWhitespace
    let name := r2.takeWhile jsWordChar
    if name = [] then none else
    let r3 := r2.drop name.length
    let nameQ := if hasPre (str "?") r3 then name ++ str "?" else name
    let r4 := if hasPre (str "?") r3 then r3.drop 1 else r3
    if r4.takeWhile jsWhitespace = [] then none else
    let r5 := r4.dropWhile jsWhitespace
    let ptype := r5.takeWhile (fun c => !jsWhitespace c)
    if ptype = [] then none else
    if tailOptOk (r5.drop ptype.length) then some (nameQ, ptype) else none
  else none

/-- `/^@return\s+(.+)$/` → raw captured text. -/
def matchAtReturn (lc : Chars) : Option Chars :=
  if hasPre (str "@return") lc then
    let r := lc.drop 7
    let w := r.takeWhile jsWhitespace
    if w = [] then none else
    dotTail w (r.dropWhile jsWhitespace)
  else none

/-- The `\[(\w+)\]\s+(.+)$` part of the index-signature `@field` pattern. -/
def matchFieldIndexRest (r : Chars) : Option (Chars × Chars) :=
  if hasPre (str "[") r then
    let key := (r.drop 1).takeWhile jsWordChar
    if key = [] then none else
    let r2 := (r.drop 1).drop key.length
    if hasPre (str "]") r2 then
      let r3 := r2.drop 1
      let w := r3.takeWhile jsWhitespace
      if w = [] then none else
      match dotTail w (r3.dropWhile jsWhitespace) with
      | some v => some (key, v)
      | none => none
    else none
  else none

/-- `/^@field\s+(?:public\s+)?\[(\w+)\]\s+(.+)$/` → (keyType, valueType). -/
def matchAtFieldIndex (lc : Chars) : Option (Chars × Chars) :=
  if hasPre (str "@field") lc then
    let r := lc.drop 6
    if r.takeWhile jsWhitespace = [] then none else
    let r2 := r.dropWhile jsWhitespace
    let withPublic : Option (Chars × Chars) :=
      if hasPre (str "public") r2 && (r2.drop 6).takeWhile jsWhitespace ≠ [] then
        matchFieldIndexRest ((r2.drop 6).dropWhile jsWhitespace)
      else none
    match withPublic with
    | some v => some v
    | none => matchFieldIndexRest r2
  else none

/-- The `(\w+\??)\s+(.+)$` part of the named `@field` pattern. -/
def matchFieldNameRest (r : Chars) : Option (Chars × Chars) :=
  let name := r.takeWhile jsWordChar
  if name = [] then none else
  let r2 := r.drop name.length
  let nameQ := if hasPre (str "?") r2 then name ++ str "?" else name
  let r3 := if hasPre (str "?") r2 then r2.drop 1 else r2
  let w := r3.takeWhile jsWhitespace
  if w = [] then none else
  match dotTail w (r3.dropWhile jsWhitespace) with
  | some v => some (nameQ, v)
  | none => none

/-- `/^@field\s+(?:public\s+)?(\w+\??)\s+(.+)$/` → (name-with-?, type text). -/
def matchAtField (lc : Chars) : Option (Chars × Chars) :=
  if hasPre (str "@field") lc then
    let r := lc.drop 6
    if r.takeWhile jsWhitespace = [] then none else
    let r2 := r.dropWhile jsWhitespace
    let withPublic : Option (Chars × Chars) :=
      if hasPre (str "public") r2 && (r2.drop 6).takeWhile jsWhitespace ≠ [] then
        matchFieldNameRest ((r2.drop 6).dropWhile jsWhitespace)
      else none
    match withPublic with
    | some v => some v
    | none => matchFieldNameRest r2
  else none

/-- First index of the combined pattern used on `@return` lines:
a space+capital+lowercase triple, or a space followed by two dashes. -/
def retDescIdx : Chars → Option Nat
  | c1 :: c2 :: c3 :: rest =>
    if c1 = ' ' && isUpperAZ c2 && isLowerAZ c3 then some 0
    else if c1 = ' ' && c2 = '-' && c3 = '-' then some 0
    else (retDescIdx (c2 :: c3 :: rest)).map (· + 1)
  | _ => none

/-- `/ ([a-z_]\w*)$/`: a space followed by a lowercase/underscore-led word
running to the end of the string → (match index, word). -/
def trailingLowerWord (s : Chars) : Option (Nat × Chars) :=
  let wrun := (s.reverse.takeWhile jsWordChar).reverse
  if wrun = [] then none
  else if !(match wrun.head? with | some c => isLowerUnd c | none => false) then none
  else
    let k := s.length - wrun.length
    if 1 ≤ k && s.getD (k - 1) ' ' = ' ' then some (k - 1, wrun) else none

def typeKeywords : List Chars :=
  [str "nil", str "string", str "number", str "boolean", str "integer",
   str "any", str "void", str "table", str "function"]

/-- `\s+\w` anchored at the start of `s` (used inside `hasWordWsWord`). -/
def wsThenWord (s : Chars) : Bool :=
  s.takeWhile jsWhitespace ≠ [] &&
  (match (s.dropWhile jsWhitespace).head? with
   | some c => jsWordChar c
   | none => false)

/-- Search for `/[>\]\w]\s+\w/`. -/
def hasWordWsWord : Chars → Bool
  | [] => false
  | c :: cs => ((c = '>' || c = ']' || jsWordChar c) && wsThenWord cs) || hasWordWsWord cs

/-- The `@return` clause cleanup applied to the trimmed captured text:
cut at `retDescIdx`, cut a trailing non-keyword lowercase word, then fall
back to `any` when `hasWordWsWord` still holds. -/
def returnCleanup (r0 : Chars) : Chars :=
  let r1 := match retDescIdx r0 with
    | some i => trim (r0.take i)
    | none => r0
  let r2 := match trailingLowerWord r1 with
    | some (i, w) => if w ∈ typeKeywords then r1 else trim (r1.take i)
    | none => r1
  if hasWordWsWord r2 then str "any" else r2

/-- `currentDescription.join(' ') || undefined`. -/
def descOf (st : ParseState) : Option Chars :=
  let d := joinSep (str " ") st.currentDescription
  if d = [] then none else some d

/-- `pendingReturn || 'void'` (JS falsiness: `null` and the empty string). -/
def pendingReturnOrVoid (st : ParseState) : Chars :=
  match st.pendingReturn with
  | some r => if r = [] then str "void" else r
  | none => str "void"

/-- Parameter-type strings built by both bare-declaration branches from the
declared parameter names and the pending `@param` records. -/
def declParamTypes (st : ParseState) (paramsStr : Chars) : List Chars :=
  (((splitChar ',' paramsStr).map trim).filter (· ≠ [])).map (fun pn =>
    match st.pendingParams.find? (fun p => p.name = pn) with
    | some pi => pn ++ (if pi.optional then str "?" else []) ++ str ": " ++ pi.type
    | none => pn ++ str ": any")

/-- The `function Class.method(params)` branch. -/
def applyFuncDecl (st : ParseState) (classPath methodName paramsStr : Chars) : ParseState :=
  let className := ((splitChar '.' classPath).getLast?).getD []
  let classes1 := ensureClass st.classes className
  let funType := str "fun(" ++ joinSep (str ", ") (declParamTypes st paramsStr) ++
    str "): " ++ pendingReturnOrVoid st
  let classes2 := mapUpdate (fun c =>
    { c with fields := c.fields ++ [⟨methodName, funType, descOf st, true⟩] }) classes1 className
  { st with classes := classes2, pendingParams := [], pendingReturn := none,
            currentDescription := [] }

/-- The `function Class:method(params)` branch (implicit `self`). -/
def applyFuncColon (st : ParseState) (className methodName paramsStr : Chars) : ParseState :=
  let classes1 := ensureClass st.classes className
  let paramTypes := declParamTypes st paramsStr
  let funType := str "fun(self: " ++ className ++
    (if paramTypes.length > 0 then str ", " ++ joinSep (str ", ") paramTypes else []) ++
    str "): " ++ pendingReturnOrVoid st
  let classes2 := mapUpdate (fun c =>
    { c with fields := c.fields ++ [⟨methodName, funType, descOf st, true⟩] }) classes1 className
  { st with classes := classes2, pendingParams := [], pendingReturn := none,
            currentDescription := [] }

/-- The `Parent.field = {}` branch (only taken while a class is active). -/
def applySubclass (st : ParseState) (parentClassName fieldName cur : Chars) : ParseState :=
  let classes1 := ensureClass st.classes parentClassName
  let classes2 := mapUpdate (fun c =>
    { c with dataFields := c.dataFields ++ [⟨fieldName, cur, none, false⟩] })
    classes1 parentClassName
  { st with classes := classes2 }

def fieldHasSelf (t : Chars) : Bool :=
  containsSub t (str "self:") || containsSub t (str "self :")

/-- The `@field name type` branch for a function-typed field: the collision
rule replaces an existing entry only when the new type binds `self` and the
existing one does not. -/
def insertMethodField (c : ParsedClass) (fieldName fieldType : Chars)
    (description : Option Chars) : ParsedClass :=
  match c.fields.findIdx? (fun f => f.name = fieldName) with
  | some idx =>
    let exHasSelf := match c.fields.get? idx with
      | some f => fieldHasSelf f.type
      | none => false
    if fieldHasSelf fieldType && !exHasSelf then
      { c with fields := c.fields.set idx ⟨fieldName, fieldType, description, true⟩ }
    else c
  | none => { c with fields := c.fields ++ [⟨fieldName, fieldType, description, true⟩] }

/-- Directive handling for a doc-comment line (`lc` is the text after the
`---` marker). -/
def stepDirective (st : ParseState) (lc : Chars) : ParseState :=
  match matchAtType lc with
  | some name => { st with detectedMainExport := some name }
  | none =>
  match matchAtAlias lc with
  | some (name, body) => { st with aliases := mapSet st.aliases name ⟨name, trim body⟩ }
  | none =>
  match matchAtClass lc with
  | some name => { st with currentClass := some name, classes := ensureClass st.classes name }
  | none =>
  match matchAtParam lc with
  | some (nameQ, ptype) =>
    let isOpt := hasSuf (str "?") nameQ
    let pname := if isOpt then nameQ.dropLast else nameQ
    { st with pendingParams := st.pendingParams ++ [⟨pname, ptype, isOpt⟩] }
  | none =>
  match matchAtReturn lc with
  | some body => { st with pendingReturn := some (returnCleanup (trim body)) }
  | none =>
  match matchAtFieldIndex lc, st.currentClass with
  | some (keyType, valueType), some cur =>
    let upd := fun (c : ParsedClass) =>
      { c with indexSignatures := c.indexSignatures ++ [⟨keyType, trim valueType⟩] }
    { st with classes := mapUpdate upd st.classes cur }
  | _, _ =>
  match matchAtField lc, st.currentClass with
  | some (nameQ, rest), some cur =>
    let fieldType := trim rest
    let isOpt := hasSuf (str "?") nameQ
    let fieldName := if isOpt then nameQ.dropLast else nameQ
    if hasPre (str "fun(") fieldType || hasPre (str "fun ") fieldType then
      let classes2 := mapUpdate (fun c => insertMethodField c fieldName fieldType (descOf st))
        st.classes cur
      { st with classes := classes2, currentDescription := [] }
    else
      let cut := descIdx fieldType
      let cleanType := match cut with
        | some i => trim (fieldType.take i)
        | none => fieldType
      let inlineDesc := match cut with
        | some i => some (trim (fieldType.drop i))
        | none => none
      let finalDesc := match descOf st with
        | some d => some d
        | none => inlineDesc
      let upd := fun (c : ParsedClass) =>
        { c with dataFields := c.dataFields ++ [⟨fieldName, cleanType, finalDesc, isOpt⟩] }
      { st with classes := mapUpdate upd st.classes cur, currentDescription := [] }
  | _, _ =>
  if !hasPre (str "@") lc && trim lc ≠ [] then
    { st with currentDescription := st.currentDescription ++ [trim lc] }
  else st

/-- One iteration of the `parseApiFile` loop. -/
def stepLine (st : ParseState) (line : Chars) : ParseState :=
  let trimmed := trim line
  match matchFuncDecl trimmed with
  | some (classPath, methodName, paramsStr) => applyFuncDecl st classPath methodName paramsStr
  | none =>
  match matchFuncColon trimmed with
  | some (className, methodName, paramsStr) => applyFuncColon st className methodName paramsStr
  | none =>
  match matchSubclassAssign trimmed, st.currentClass with
  | some (parentClassName, fieldName), some cur => applySubclass st parentClassName fieldName cur
  | _, _ =>
  if !hasPre (str "---") trimmed then
    if trimmed = [] || hasPre (str "--") trimmed || hasPre (str "_G.") trimmed then st
    else { st with currentDescription := [], pendingParams := [], pendingReturn := none }
  else
    stepDirective st ((trimmed.drop 3).dropWhile jsWhitespace)

def initState : ParseState := ⟨[], [], none, [], none, [], none⟩

def parseResultOf (st : ParseState) : ParseResult :=
  ⟨st.classes, st.aliases, st.detectedMainExport⟩

def parseApiFile (content : Chars) : ParseResult :=
  parseResultOf ((splitChar '\n' content).foldl stepLine initState)

/-! ## Class filtering, enum detection, declaration generation -/

def matchesFilter (className : Chars) (patterns : List Chars) : Bool :=
  patterns.any (fun pattern =>
    if hasSuf (str "*") pattern then hasPre pattern.dropLast className
    else className = pattern)

def filterClasses (classes : List (Chars × ParsedClass))
    (filterPatterns : Option (List Chars)) : List (Chars × ParsedClass) :=
  match filterPatterns with
  | none => classes
  | some ps =>
    if ps.length = 0 then classes
    else classes.filter (fun p => matchesFilter p.1 ps)

/-- Enum-likeness: nonempty data fields, no methods, no index signatures, and
every data field's raw type, lower-cased and trimmed, is `number`/`integer`
(ASCII lower-casing; all observed inputs are ASCII). -/
def isEnumLikeClass (cls : ParsedClass) : Bool :=
  let hasDataFields := cls.dataFields.length > 0
  let hasMethods := cls.fields.length > 0
  let hasIndexSigs := cls.indexSignatures.length > 0
  if !hasDataFields || hasMethods || hasIndexSigs then false
  else cls.dataFields.all (fun f =>
    let ft := trim (f.type.map Char.toLower)
    ft = str "number" || ft = str "integer")

def enumFieldLines (f : DataField) : List Chars :=
  (match f.description with
   | some d => [str "  /** " ++ d ++ str " */"]
   | none => []) ++
  [str "  " ++ f.name ++ str ","]

def generateEnum (className : Chars) (cls : ParsedClass) : List Chars :=
  [str "declare enum " ++ className ++ str " \x7b"] ++
  (cls.dataFields.map enumFieldLines).flatten ++
  [str "\x7d"]

def RESERVED_METHOD_NAMES : List Chars :=
  [str "new", str "delete", str "default", str "class", str "function",
   str "return", str "typeof", str "import", str "export"]

/-- `s.lastIndexOf(pat)`. -/
def lastSubIdx (pat s : Chars) : Option Nat :=
  ((List.range (s.length + 1)).filter (fun i => pat.isPrefixOf (s.drop i))).getLast?

def interfaceDataFieldLines (enumClasses : List Chars) (f : DataField) : List Chars :=
  (match f.description with
   | some d => [str "  /** " ++ d ++ str " */"]
   | none => []) ++
  (let tsType0 := convertLuaTypeToTS f.type
   let tsType := if enumClasses.contains tsType0 then str "typeof " ++ tsType0 else tsType0
   let optMark := if f.optional then str "?" else []
   [str "  " ++ f.name ++ optMark ++ str ": " ++ tsType ++ str ";"])

def interfaceMethodLines (f : MethodField) : List Chars :=
  (match f.description with
   | some d => [str "  /** " ++ d ++ str " */"]
   | none => []) ++
  (let funType := parseFunType f.type
   let m0 := if hasPre (str "(") funType then funType.drop 1 else funType
   let m1 := match lastSubIdx (str ") => ") m0 with
     | some i => m0.take i ++ str "): " ++ m0.drop (i + 5)
     | none => m0
   let methodName := if f.name ∈ RESERVED_METHOD_NAMES
     then str "\"" ++ f.name ++ str "\"" else f.name
   [str "  " ++ methodName ++ str "(" ++ m1 ++ str ";"])

def generateInterface (className : Chars) (cls : ParsedClass)
    (enumClasses : List Chars) : List Chars :=
  [str "interface " ++ className ++ str " \x7b"] ++
  (cls.indexSignatures.map (fun sig =>
    str "  [key: " ++ convertLuaTypeToTS sig.keyType ++ str "]: " ++
    convertLuaTypeToTS sig.valueType ++ str ";")) ++
  (cls.dataFields.map (interfaceDataFieldLines enumClasses)).flatten ++
  (cls.fields.map interfaceMethodLines).flatten ++
  [str "\x7d"]

/-- Per-module configuration (`declareGlobalVar` defaults to JS-falsy). -/
structure ModuleConfig where
  file : Chars
  mainExport : Option Chars
  filterClasses : Option (List Chars)
  declareGlobalVar : Bool
deriving Repr, DecidableEq

/-- JS truthiness of a string-or-undefined value. -/
def truthyOpt : Option Chars → Bool
  | some r => r ≠ []
  | none => false

def headerLines (config : ModuleConfig) : List Chars :=
  [str "// Auto-generated from Sylvanas API",
   str "// Source: " ++ config.file,
   str "// Do not edit manually",
   []]

def aliasSection (aliases : List (Chars × AliasEntry)) : List Chars :=
  if aliases.length > 0 then
    (aliases.map (fun p =>
      str "type " ++ p.1 ++ str " = " ++ convertLuaAliasToTS p.2.type ++ str ";")) ++ [[]]
  else []

def enumSection (filteredClasses : List (Chars × ParsedClass))
    (enumClasses : List Chars) : List Chars :=
  (filteredClasses.map (fun p =>
    if enumClasses.contains p.1 then generateEnum p.1 p.2 ++ [[]] else [])).flatten

def interfaceSection (filteredClasses : List (Chars × ParsedClass))
    (enumClasses : List Chars) : List Chars :=
  (filteredClasses.map (fun p =>
    if !enumClasses.contains p.1 then generateInterface p.1 p.2 enumClasses ++ [[]] else [])).flatten

/-- `let mainExport = config.mainExport; if (!mainExport && detected &&
filtered.has(detected)) mainExport = detected;` -/
def resolveMainExport (config : ModuleConfig)
    (filteredClasses : List (Chars × ParsedClass))
    (detectedMainExport : Option Chars) : Option Chars :=
  let detectedOk := match detectedMainExport with
    | some d => d ≠ [] && mapHas filteredClasses d
    | none => false
  if !truthyOpt config.mainExport && detectedOk then detectedMainExport
  else config.mainExport

def globalVarSection (mainExport : Option Chars) (declareGlobalVar : Bool) : List Chars :=
  if declareGlobalVar && truthyOpt mainExport then
    let x := mainExport.getD []
    [str "// Global variable declaration",
     str "declare const " ++ x ++ str ": " ++ x ++ str ";",
     []]
  else []

def moduleSection (modulePath : Chars) (mainExport : Option Chars) : List Chars :=
  if truthyOpt mainExport then
    let x := mainExport.getD []
    [str "// Module declaration for imports",
     str "declare module \"" ++ modulePath ++ str "\" \x7b",
     str "  const _default: " ++ x ++ str ";",
     str "  export = _default;",
     str "\x7d",
     []]
  else []

/-- The sequence of lines pushed by `generateDeclaration`. -/
def generateDeclarationLines (modulePath : Chars) (config : ModuleConfig)
    (parseResult : ParseResult) : List Chars :=
  let filteredClasses := filterClasses parseResult.classes config.filterClasses
  let enumClasses := (filteredClasses.filter (fun p => isEnumLikeClass p.2)).map (·.1)
  let mainExport := resolveMainExport config filteredClasses parseResult.detectedMainExport
  headerLines config ++
  aliasSection parseResult.aliases ++
  enumSection filteredClasses enumClasses ++
  interfaceSection filteredClasses enumClasses ++
  globalVarSection mainExport config.declareGlobalVar ++
  moduleSection modulePath mainExport

def generateDeclaration (modulePath : Chars) (config : ModuleConfig)
    (parseResult : ParseResult) : Chars :=
  joinSep (str "\n") (generateDeclarationLines modulePath config parseResult)

/-! ## Module post-processing -/

/-- JS `content.replace(/literal/g, repl)`: leftmost non-overlapping global
replacement of a literal pattern.  The fuel argument only bounds the number
of scan steps; each step consumes at least one input character, so the
wrapper's `s.length` is always sufficient. -/
def replaceAllSubGo (pat repl : Chars) : Nat → Chars → Chars
  | 0, s => s
  | _ + 1, [] => []
  | k + 1, c :: cs =>
    if pat.isPrefixOf (c :: cs) && pat ≠ [] then
      repl ++ replaceAllSubGo pat repl k (cs.drop (pat.length - 1))
    else c :: replaceAllSubGo pat repl k cs

def replaceAllSub (pat repl s : Chars) : Chars := replaceAllSubGo pat repl s.length s

/-- JS `content.replace(/literal/, repl)`: first occurrence only. -/
def replaceFirstSub (pat repl : Chars) (s : Chars) : Chars :=
  match subIdx pat s with
  | some i => s.take i ++ repl ++ s.drop (i + pat.length)
  | none => s

def postProcessOwMenuApi (content : Chars) : Chars :=
  let c1 := replaceAllSub (str "opts?: \x7b):") (str "opts?: object):") content
  replaceAllSub (str "opts?: \x7b, ") (str "opts?: object, ") c1

def postProcessKickExternalFiltersHelper (content : Chars) : Chars :=
  replaceAllSub (str ", string|nil: any,") (str ",") content

/-- The second replace of `postProcessSpellSequenceHelper`: the global
pattern `colon-space-string-space-quote`, a nonempty quote-free capture,
then quote-semicolon, replaced by the capture re-quoted. -/
def ppSpellSeqQuoteGo : Nat → Chars → Chars
  | 0, s => s
  | _ + 1, [] => []
  | k + 1, c :: cs =>
    if (str ": string \"").isPrefixOf (c :: cs) then
      let afterQ := (c :: cs).drop 10
      let gap := afterQ.takeWhile (· ≠ '"')
      if gap ≠ [] && (str "\";").isPrefixOf (afterQ.drop gap.length) then
        str ": \"" ++ gap ++ str "\";" ++ ppSpellSeqQuoteGo k (afterQ.drop (gap.length + 2))
      else c :: ppSpellSeqQuoteGo k cs
    else c :: ppSpellSeqQuoteGo k cs

def ppSpellSeqQuote (s : Chars) : Chars := ppSpellSeqQuoteGo s.length s

def postProcessSpellSequenceHelper (content : Chars) : Chars :=
  let c1 := replaceAllSub (str "game_object | (this: void) => game_object")
    (str "game_object | ((this: void) => game_object)") content
  ppSpellSeqQuote c1

/-- The lazy middle of patterns `lit1` + `.*?` + `lit2`: index of the
earliest `lit2` occurrence reachable through `.`-matchable characters. -/
def lazyGapIdx (lit2 : Chars) : Chars → Option Nat
  | [] => if lit2.isPrefixOf ([] : Chars) then some 0 else none
  | c :: cs =>
    if lit2.isPrefixOf (c :: cs) then some 0
    else if jsDotChar c then (lazyGapIdx lit2 cs).map (· + 1)
    else none

/-- Global replace of `lit1` + `.*?` + `lit2` by the fixed string `repl`. -/
def replaceLazyGGo (lit1 lit2 repl : Chars) : Nat → Chars → Chars
  | 0, s => s
  | _ + 1, [] => []
  | k + 1, c :: cs =>
    if lit1.isPrefixOf (c :: cs) && lit1 ≠ [] then
      match lazyGapIdx lit2 ((c :: cs).drop lit1.length) with
      | some g =>
        repl ++ replaceLazyGGo lit1 lit2 repl k (((c :: cs).drop lit1.length).drop (g + lit2.length))
      | none => c :: replaceLazyGGo lit1 lit2 repl k cs
    else c :: replaceLazyGGo lit1 lit2 repl k cs

def replaceLazyG (lit1 lit2 repl s : Chars) : Chars := replaceLazyGGo lit1 lit2 repl s.length s

/-- First-occurrence replace of `lit1` + `.*?` + `lit2` by `repl`. -/
def replaceLazyFirstGo (lit1 lit2 repl : Chars) : Nat → Chars → Chars
  | 0, s => s
  | _ + 1, [] => []
  | k + 1, c :: cs =>
    if lit1.isPrefixOf (c :: cs) && lit1 ≠ [] then
      match lazyGapIdx lit2 ((c :: cs).drop lit1.length) with
      | some g => repl ++ ((c :: cs).drop lit1.length).drop (g + lit2.length)
      | none => c :: replaceLazyFirstGo lit1 lit2 repl k cs
    else c :: replaceLazyFirstGo lit1 lit2 repl k cs

def replaceLazyFirst (lit1 lit2 repl s : Chars) : Chars :=
  replaceLazyFirstGo lit1 lit2 repl s.length s

/-- Anchored attempt of a truncated-tuple family pattern
(method literal, paren-free argument group, colon, whitespace, open paren,
semicolon-free run ending in comma-semicolon); returns the captured group
and the total matched length. -/
def familyMatchAt (m : Chars) (s : Chars) : Option (Chars × Nat) :=
  if m.isPrefixOf s && m ≠ [] then
    let r1 := s.drop m.length
    if hasPre (str "(") r1 then
      let gap1 := (r1.drop 1).takeWhile (· ≠ ')')
      let r2 := (r1.drop 1).drop gap1.length
      if hasPre (str ")") r2 then
        let r3 := r2.drop 1
        if hasPre (str ":") r3 then
          let ws := (r3.drop 1).takeWhile jsWhitespace
          let r4 := (r3.drop 1).drop ws.length
          if hasPre (str "(") r4 then
            let r5 := r4.drop 1
            match charIdx ';' r5 with
            | some j =>
              if 1 ≤ j && r5.getD (j - 1) ' ' = ',' then
                some (m ++ str "(" ++ gap1 ++ str ")",
                      m.length + gap1.length + ws.length + j + 5)
              else none
            | none => none
          else none
        else none
      else none
    else none
  else none

/-- Global replace of a truncated-tuple family pattern by the captured
group followed by `replSuffix`. -/
def familyReplaceGo (m replSuffix : Chars) : Nat → Chars → Chars
  | 0, s => s
  | _ + 1, [] => []
  | k + 1, c :: cs =>
    match familyMatchAt m (c :: cs) with
    | some (g1, consumed) =>
      g1 ++ replSuffix ++ familyReplaceGo m replSuffix k ((c :: cs).drop consumed)
    | none => c :: familyReplaceGo m replSuffix k cs

def familyReplace (m replSuffix s : Chars) : Chars := familyReplaceGo m replSuffix s.length s

def iziEventHandlers : List Chars :=
  [str "on_buff_gain", str "on_buff_lose", str "on_debuff_gain", str "on_debuff_lose",
   str "on_combat_start", str "on_combat_finish", str "on_spell_begin",
   str "on_spell_success", str "on_spell_cancel"]

def iziCc5Methods : List Chars :=
  [str "is_cc", str "isCC", str "crowd_controlled", str "isCrowdControlled",
   str "is_cc_weak", str "isWeakCC", str "weak_cc",
   str "is_rooted", str "rooted", str "isRooted",
   str "is_stunned", str "stunned", str "isStunned",
   str "is_feared", str "feared", str "isFeared",
   str "is_sapped", str "sapped", str "isSapped",
   str "is_silenced", str "silenced", str "isSilenced",
   str "is_cycloned", str "cycloned", str "isCycloned",
   str "is_disarmed", str "disarmed", str "isDisarmed",
   str "is_disoriented", str "isDisorient", str "isDisoriented",
   str "is_incap", str "is_incapacitated", str "isIncapacitated",
   str "immune_cc", str "isCCImmune"]

def iziCcReductionMethods : List Chars :=
  [str "get_cc_reduction", str "cc_reduction", str "getCCReduce", str "getCCReduction"]

def iziSlowBoolMethods : List Chars := [str "is_slowed", str "isSlowed", str "slowed"]

def iziSlowNumMethods : List Chars := [str "get_slow", str "slow_mult", str "getSlow"]

def iziSlowImmuneMethods : List Chars :=
  [str "is_slow_immune", str "slow_immune", str "isSlowImmune"]

def iziDmgReductionMethods : List Chars :=
  [str "get_damage_reduction", str "getDRPct", str "dmg_reduction", str "dmgRed",
   str "getDamageReduction"]

def iziDmgImmuneMethods : List Chars :=
  [str "isImmune", str "isDamageImmune", str "immune_dmg"]

/-- `postProcessIziSdk` (its `outputDir` argument is unused by the source). -/
def postProcessIziSdk (content : Chars) : Chars :=
  let c := replaceFirstSub
    (str "type adv_condition = boolean | (this: void, u: game_object) => boolean;")
    (str "type adv_condition = boolean | ((this: void, u: game_object) => boolean);") content
  let c := replaceFirstSub
    (str "skip_back?: boolean validated in is_castable_to_unit;")
    (str "skip_back?: boolean;") c
  let c := replaceFirstSub
    (str "is_spell_in_range(this: game_object, spell: number | izi_spell | \x7bid:fun(self):integer\x7d): boolean;")
    (str "is_spell_in_range(this: game_object, spell: number | izi_spell | \x7b id: (this: any) => number \x7d): boolean;") c
  let c := replaceFirstSub
    (str "vec2: vec2 | (this: void, x: number, y: number) => vec2;")
    (str "vec2: vec2 | ((this: void, x: number, y: number) => vec2);") c
  let c := replaceFirstSub
    (str "vec3: vec3 | (this: void, x: number, y: number, z: number) => vec3;")
    (str "vec3: vec3 | ((this: void, x: number, y: number, z: number) => vec3);") c
  let c := replaceFirstSub
    (str "circle: circle | (this: void, center: vec3, radius: number) => circle;")
    (str "circle: circle | ((this: void, center: vec3, radius: number) => circle);") c
  let c := replaceFirstSub
    (str "rectangle: rectangle | (this: void, min: vec3, max: vec3) => rectangle;")
    (str "rectangle: rectangle | ((this: void, min: vec3, max: vec3) => rectangle);") c
  let c := replaceFirstSub
    (str "cone: cone | (this: void, origin: vec3, direction: vec3, angle: number, range: number) => cone;")
    (str "cone: cone | ((this: void, origin: vec3, direction: number, range: number) => cone);") c
  let c := iziEventHandlers.foldl (fun acc h =>
    replaceLazyG (h ++ str "(this: void, cb: ") (str ") => (this: void): void;")
      (h ++ str "(this: void, cb: (this: void, ev: any) => void): () => void;") acc) c
  let c := replaceLazyFirst (str "on_key_release(this: void, key: ")
    (str ") => (this: void): void;")
    (str "on_key_release(this: void, key: number | string, cb: (this: void, key: number | string) => void): () => void;") c
  let c := replaceFirstSub
    (str "after(this: void, seconds: number, fn: (this: void) => void) => (this: void): void;")
    (str "after(this: void, seconds: number, fn: (this: void) => void): () => void;") c
  let c := iziCc5Methods.foldl (fun acc m =>
    familyReplace m (str ": LuaMultiReturn<[boolean, number, number, boolean, boolean]>;") acc) c
  let c := iziCcReductionMethods.foldl (fun acc m =>
    familyReplace m (str ": LuaMultiReturn<[number, number, number]>;") acc) c
  let c := iziSlowBoolMethods.foldl (fun acc m =>
    familyReplace m (str ": LuaMultiReturn<[boolean, number, number]>;") acc) c
  let c := iziSlowNumMethods.foldl (fun acc m =>
    familyReplace m (str ": LuaMultiReturn<[number, number]>;") acc) c
  let c := iziSlowImmuneMethods.foldl (fun acc m =>
    familyReplace m (str ": LuaMultiReturn<[boolean, number]>;") acc) c
  let c := iziDmgReductionMethods.foldl (fun acc m =>
    familyReplace m (str ": LuaMultiReturn<[number, number, number]>;") acc) c
  iziDmgImmuneMethods.foldl (fun acc m =>
    familyReplace m (str ": LuaMultiReturn<[boolean, number, number]>;") acc) c

/-- Module-keyed dispatch of the post-processing patches. -/
def applyPostProcessing (modulePath content : Chars) : Chars :=
  if modulePath = str "common/izi_sdk" then postProcessIziSdk content
  else if modulePath = str "common/ow_menu_api" then postProcessOwMenuApi content
  else if modulePath = str "common/utility/kick_external_filters_helper" then
    postProcessKickExternalFiltersHelper content
  else if modulePath = str "common/utility/spell_sequence_helper" then
    postProcessSpellSequenceHelper content
  else content

/-! ## Length lemmas -/

theorem trim_length_le (s : Chars) : (trim s).length ≤ s.length := by
  unfold trim
  calc ((s.dropWhile jsWhitespace).reverse.dropWhile jsWhitespace).reverse.length
      = ((s.dropWhile jsWhitespace).reverse.dropWhile jsWhitespace).length := by
        rw [List.length_reverse]
    _ ≤ (s.dropWhile jsWhitespace).reverse.length := (List.dropWhile_sublist _).length_le
    _ = (s.dropWhile jsWhitespace).length := by rw [List.length_reverse]
    _ ≤ s.length := (List.dropWhile_sublist _).length_le

theorem trim_take_length_le (u : Chars) (i : Nat) : (trim (u.take i)).length ≤ u.length :=
  le_trans (trim_length_le _) (List.take_sublist i u).length_le

theorem stripComments_length_le (s : Chars) : (stripComments s).length ≤ s.length := by
  unfold stripComments
  cases hs : subIdx (str " --") s with
  | none =>
    simp only
    cases hs2 : subIdx (str "  #") s with
    | none => simp
    | some i => simpa using trim_take_length_le s i
  | some i =>
    simp only
    cases hs2 : subIdx (str "  #") (trim (s.take i)) with
    | none => simpa using trim_take_length_le s i
    | some j =>
      simp only
      exact le_trans (trim_take_length_le _ j) (trim_take_length_le s i)

theorem stripBarNil_length_le (s : Chars) : (stripBarNil s).length ≤ s.length := by
  induction s with
  | nil => simp [stripBarNil]
  | cons c cs ih =>
    simp only [stripBarNil]
    split
    · simp
    · simpa using ih

theorem stripBarNil_strict (s : Chars)
    (h : hasSuf (str "|nil") s = true ∨ hasSuf (str "| nil") s = true) :
    (stripBarNil s).length < s.length := by
  induction s with
  | nil =>
    exfalso
    rcases h with h | h <;>
      simp [hasSuf, List.isSuffixOf_iff_suffix, List.suffix_nil, str] at h
  | cons c cs ih =>
    simp only [stripBarNil]
    split
    · simp
    · rename_i hcond
      simp only [List.length_cons, Nat.add_lt_add_iff_right]
      apply ih
      -- the suffix cannot be the whole list (that case satisfies hcond)
      rcases h with h | h
      · left
        rw [hasSuf, List.isSuffixOf_iff_suffix] at h ⊢
        rw [List.suffix_cons_iff] at h
        rcases h with h | h
        · exfalso
          have hc : c = '|' := by
            have := congrArg (fun l => l.head?) h
            simpa [str] using this.symm
          have hcs : cs = str "nil" := by
            have := congrArg (fun l => l.tail) h
            simpa [str] using this.symm
          rw [hc, hcs] at hcond
          simp [str, jsWhitespace] at hcond
        · exact h
      · rw [hasSuf, List.isSuffixOf_iff_suffix] at h
        rw [List.suffix_cons_iff] at h
        rcases h with h | h
        · exfalso
          have hc : c = '|' := by
            have := congrArg (fun l => l.head?) h
            simpa [str] using this.symm
          have hcs : cs = str " nil" := by
            have := congrArg (fun l => l.tail) h
            simpa [str] using this.symm
          rw [hc, hcs] at hcond
          simp [str, jsWhitespace] at hcond
        · right
          rw [hasSuf, List.isSuffixOf_iff_suffix]
          exact h

theorem splitUnionGo_mem_length (cs : Chars) :
    ∀ (d : Int) (cur : Chars) (p : Chars), p ∈ splitUnionGo cs d cur →
      p.length ≤ cur.length + cs.length := by
  induction cs with
  | nil =>
    intro d cur p hp
    simp only [splitUnionGo] at hp
    split at hp
    · simp at hp
    · simp only [List.mem_singleton] at hp
      subst hp
      simpa using trim_length_le cur
  | cons c cs ih =>
    intro d cur p hp
    simp only [splitUnionGo] at hp
    split at hp
    · have := ih (d + 1) (cur ++ [c]) p hp
      simp at this ⊢
      omega
    · split at hp
      · have := ih (d - 1) (cur ++ [c]) p hp
        simp at this ⊢
        omega
      · split at hp
        · rcases List.mem_cons.mp hp with h | h
          · subst h
            have := trim_length_le cur
            simp
            omega
          · have := ih d [] p h
            simp at this ⊢
            omega
        · have := ih d (cur ++ [c]) p hp
          simp at this ⊢
          omega

theorem splitUnionGo_mem_length_strict (cs : Chars) :
    ∀ (d : Int) (cur : Chars) (p : Chars), 2 ≤ (splitUnionGo cs d cur).length →
      p ∈ splitUnionGo cs d cur → p.length + 1 ≤ cur.length + cs.length := by
  induction cs with
  | nil =>
    intro d cur p hlen hp
    simp only [splitUnionGo] at hlen
    split at hlen <;> simp at hlen
  | cons c cs ih =>
    intro d cur p hlen hp
    by_cases h1 : isOpenDelim c = true
    · simp only [splitUnionGo, h1, if_true] at hlen hp
      have := ih (d + 1) (cur ++ [c]) p hlen hp
      simp at this ⊢
      omega
    · by_cases h2 : isCloseDelim c = true
      · simp only [splitUnionGo, h1, h2, if_true, if_false, Bool.false_eq_true] at hlen hp
        have := ih (d - 1) (cur ++ [c]) p hlen hp
        simp at this ⊢
        omega
      · simp only [splitUnionGo, h1, h2, if_false, Bool.false_eq_true, Bool.and_eq_true,
          decide_eq_true_eq] at hlen hp
        by_cases h3 : c = '|' ∧ d = 0
        · rw [if_pos h3] at hp
          rcases List.mem_cons.mp hp with h | h
          · subst h
            have := trim_length_le cur
            simp
            omega
          · have := splitUnionGo_mem_length cs d [] p h
            simp at this ⊢
            omega
        · rw [if_neg h3] at hlen hp
          have := ih d (cur ++ [c]) p hlen hp
          simp at this ⊢
          omega

/-- A union part obtained from a split with at least two parts is strictly
shorter than the input. -/
theorem splitUnion_mem_length_strict (t p : Chars)
    (hlen : 2 ≤ (splitUnion t).length) (hp : p ∈ splitUnion t) :
    p.length < t.length := by
  have := splitUnionGo_mem_length_strict t 0 [] p hlen hp
  simpa using this

theorem splitCommaGo_mem_length (cs : Chars) :
    ∀ (d : Int) (cur : Chars) (p : Chars), p ∈ splitCommaGo cs d cur →
      p.length ≤ cur.length + cs.length := by
  induction cs with
  | nil =>
    intro d cur p hp
    simp only [splitCommaGo] at hp
    split at hp
    · simp at hp
    · simp only [List.mem_singleton] at hp
      subst hp
      simpa using trim_length_le cur
  | cons c cs ih =>
    intro d cur p hp
    simp only [splitCommaGo] at hp
    split at hp
    · have := ih (d + 1) (cur ++ [c]) p hp
      simp at this ⊢
      omega
    · split at hp
      · have := ih (d - 1) (cur ++ [c]) p hp
        simp at this ⊢
        omega
      · split at hp
        · rcases List.mem_cons.mp hp with h | h
          · subst h
            have := trim_length_le cur
            simp
            omega
          · have := ih d [] p h
            simp at this ⊢
            omega
        · have := ih d (cur ++ [c]) p hp
          simp at this ⊢
          omega

theorem splitByComma_mem_length (s p : Chars) (hp : p ∈ splitByComma s) :
    p.length ≤ s.length := by
  have := splitCommaGo_mem_length s 0 [] p hp
  simpa using this

theorem charIdx_lt (c : Char) (s : Chars) (i : Nat) (h : charIdx c s = some i) :
    i < s.length := by
  induction s generalizing i with
  | nil => simp [charIdx] at h
  | cons a l ih =>
    simp only [charIdx] at h
    split at h
    · simp only [Option.some.injEq] at h
      subst h
      simp only [List.length_cons]
      omega
    · cases hj : charIdx c l with
      | none => rw [hj] at h; simp at h
      | some j =>
        rw [hj] at h
        simp only [Option.map_some', Option.some.injEq] at h
        subst h
        have := ih j hj
        simp only [List.length_cons]
        omega

theorem findMatchingParenGo_bound (cs : Chars) :
    ∀ (i : Nat) (d : Int) (e : Nat), findMatchingParenGo cs i d = some e →
      i ≤ e ∧ e < i + cs.length := by
  induction cs with
  | nil => intro i d e h; simp [findMatchingParenGo] at h
  | cons c cs ih =>
    intro i d e h
    rw [findMatchingParenGo] at h
    repeat' split at h
    all_goals
      first
        | (simp only [Option.some.injEq] at h
           subst h
           simp only [List.length_cons]
           omega)
        | (have hrec := ih (i + 1) _ e h
           simp only [List.length_cons]
           omega)

theorem findMatchingParen_bound (s : Chars) (st e : Nat)
    (h : findMatchingParen s st = some e) : st ≤ e ∧ e < s.length := by
  unfold findMatchingParen at h
  have hb := findMatchingParenGo_bound (s.drop st) st 0 e h
  have hd : (s.drop st).length = s.length - st := List.length_drop st s
  -- the scan cannot terminate on an empty remainder, so st < s.length follows
  rcases hb with ⟨h1, h2⟩
  exact ⟨h1, by omega⟩

theorem optMap_isSome (f : α → Option β) (l : List α)
    (h : ∀ x ∈ l, (f x).isSome = true) : (optMap f l).isSome = true := by
  induction l with
  | nil => rfl
  | cons x xs ih =>
    simp only [optMap]
    cases hx : f x with
    | none =>
      have := h x (by simp)
      rw [hx] at this
      simp at this
    | some y =>
      simp only [Option.some_bind]
      have h2 := ih (fun z hz => h z (by simp [hz]))
      cases hxs : optMap f xs with
      | none => rw [hxs] at h2; simp at h2
      | some ys => rfl

theorem optMap_congr (f g : α → Option β) (l : List α)
    (h : ∀ x ∈ l, f x = g x) : optMap f l = optMap g l := by
  induction l with
  | nil => rfl
  | cons x xs ih =>
    simp only [optMap]
    rw [h x (by simp), ih (fun z hz => h z (by simp [hz]))]

theorem optMap_eq_some_map (f : α → Option β) (g : α → β) (l : List α)
    (h : ∀ x ∈ l, f x = some (g x)) : optMap f l = some (l.map g) := by
  induction l with
  | nil => rfl
  | cons x xs ih =>
    simp only [optMap, List.map_cons]
    rw [h x (by simp), ih (fun z hz => h z (by simp [hz]))]
    rfl

theorem convertF_any (k : Nat) : convertF (k + 1) (str "any") = some (str "any") := rfl

theorem convertF_anyArr (k : Nat) : convertF (k + 2) (str "any[]") = some (str "any[]") := rfl

theorem parseParams_type_bound (ps : Chars) :
    ∀ p ∈ parseParams ps,
      p.type.length ≤ ps.length ∨ p.type = str "any" ∨ p.type = str "any[]" := by
  intro p hp
  unfold parseParams at hp
  split at hp
  · simp at hp
  · rw [List.mem_filterMap] at hp
    obtain ⟨part, hpart, hf⟩ := hp
    have hplen : part.length ≤ ps.length := splitByComma_mem_length ps part hpart
    have htlen : (trim part).length ≤ ps.length := le_trans (trim_length_le part) hplen
    simp only [] at hf
    split at hf
    · simp at hf
    · split at hf
      · -- vararg parameter
        rename_i hdots
        split at hf
        · rename_i ci hci
          simp only [Option.some.injEq] at hf
          subst hf
          left
          rw [hasPre, List.isPrefixOf_iff_prefix] at hdots
          obtain ⟨u, hu⟩ := hdots
          have hci3 : 3 ≤ ci := by
            rw [← hu] at hci
            simp only [str, charIdx] at hci
            norm_num at hci
            cases hj : charIdx ':' u with
            | none => rw [hj] at hci; simp at hci
            | some j => rw [hj] at hci; simp at hci; omega
          have hlt : ci < (trim part).length := charIdx_lt ':' (trim part) ci hci
          have hdrop : ((trim part).drop (ci + 1)).length = (trim part).length - (ci + 1) :=
            List.length_drop _ _
          have htr : (trim ((trim part).drop (ci + 1))).length ≤ (trim part).length - (ci + 1) :=
            le_trans (trim_length_le _) (le_of_eq hdrop)
          simp only [List.length_append, str, List.length_cons, List.length_nil]
          simp only [str] at htr
          omega
        · simp only [Option.some.injEq] at hf
          subst hf
          right; right; rfl
      · split at hf
        · rename_i ci hci
          simp only [Option.some.injEq] at hf
          subst hf
          left
          simp only []
          have htr : (trim ((trim part).drop (ci + 1))).length ≤ (trim part).length :=
            le_trans (trim_length_le _) (by simp [List.length_drop])
          split
          · have := List.length_dropLast (trim ((trim part).drop (ci + 1)))
            omega
          · omega
        · simp only [Option.some.injEq] at hf
          subst hf
          right; left; rfl

theorem pftRet_congr (conv1 conv2 : Chars → Option Chars) (rest : Chars)
    (h : ∀ u : Chars, u.length + 1 ≤ rest.length → conv1 u = conv2 u) :
    pftRet conv1 rest = pftRet conv2 rest := by
  simp only [pftRet]
  split
  · rename_i hcol
    have hrest : 1 ≤ rest.length := by
      rw [hasPre, List.isPrefixOf_iff_prefix] at hcol
      obtain ⟨u, hu⟩ := hcol
      rw [← hu]; simp [str]
    have hb0 : (trim (rest.drop 1)).length + 1 ≤ rest.length := by
      have h1 := trim_length_le (rest.drop 1)
      have h2 := List.length_drop 1 rest
      omega
    have hr1 : (match subIdx (str " --") (trim (rest.drop 1)) with
        | some i => trim ((trim (rest.drop 1)).take i)
        | none => trim (rest.drop 1)).length ≤ (trim (rest.drop 1)).length := by
      split
      · exact trim_take_length_le _ _
      · exact le_refl _
    have key : ∀ r2 : Chars, r2.length + 1 ≤ rest.length →
        (if (splitByComma r2).length > 1 then
          (optMap (fun q => conv1 (trim q)) (splitByComma r2)).map
            (fun rs => str "LuaMultiReturn<[" ++ joinSep (str ", ") rs ++ str "]>")
         else conv1 r2)
        = (if (splitByComma r2).length > 1 then
          (optMap (fun q => conv2 (trim q)) (splitByComma r2)).map
            (fun rs => str "LuaMultiReturn<[" ++ joinSep (str ", ") rs ++ str "]>")
         else conv2 r2) := by
      intro r2 hb
      split
      · rw [optMap_congr (fun q => conv1 (trim q)) (fun q => conv2 (trim q))]
        intro q hq
        apply h
        have h1 := splitByComma_mem_length r2 q hq
        have h2 := trim_length_le q
        omega
      · exact h r2 hb
    apply key
    split
    · exact le_trans (Nat.succ_le_succ (le_trans (trim_take_length_le _ _) hr1)) hb0
    · exact le_trans (Nat.succ_le_succ hr1) hb0
  · rfl

theorem renderParam_congr (conv1 conv2 : Chars → Option Chars) (p : FunParam)
    (h : conv1 p.type = conv2 p.type) :
    renderParam conv1 p = renderParam conv2 p := by
  simp only [renderParam]
  split
  · rfl
  · rw [h]

theorem sliceN_length_le (a b : Nat) (s : Chars) (hb : b < s.length) :
    (sliceN a b s).length + 1 ≤ s.length := by
  simp only [sliceN]
  have h1 : ((s.drop a).take (b - a)).length ≤ b - a := List.length_take_le _ _
  omega

theorem pftBody_congr (conv1 conv2 : Chars → Option Chars) (s : Chars)
    (h : ∀ u : Chars, u.length < s.length → conv1 u = conv2 u)
    (hA : conv1 (str "any") = conv2 (str "any"))
    (hA2 : conv1 (str "any[]") = conv2 (str "any[]")) :
    pftBody conv1 s = pftBody conv2 s := by
  simp only [pftBody]
  split
  · rfl
  · rename_i sp hsp
    split
    · rfl
    · rename_i ep hep
      have hepb := findMatchingParen_bound s sp ep hep
      have hps : (sliceN (sp + 1) ep s).length + 1 ≤ s.length :=
        sliceN_length_le (sp + 1) ep s hepb.2
      have hrest : (trim (s.drop (ep + 1))).length + 1 ≤ s.length := by
        have h1 := trim_length_le (s.drop (ep + 1))
        have h2 := List.length_drop (ep + 1) s
        omega
      rw [pftRet_congr conv1 conv2 _ (fun u hu => h u (by omega))]
      rw [optMap_congr (renderParam conv1) (renderParam conv2)]
      intro p hp
      apply renderParam_congr
      rcases parseParams_type_bound _ p hp with hb | hb | hb
      · exact h _ (by omega)
      · rw [hb]; exact hA
      · rw [hb]; exact hA2

theorem convertTail_congr (conv1 conv2 pft1 pft2 : Chars → Option Chars) (t : Chars)
    (h : ∀ u : Chars, u.length < t.length → conv1 u = conv2 u)
    (hp : pft1 t = pft2 t) (hne1 : 1 ≤ t.length) :
    convertTail conv1 pft1 t = convertTail conv2 pft2 t := by
  simp only [convertTail]
  split
  · -- trailing `?`
    have hlt : t.dropLast.length < t.length := by
      have := List.length_dropLast t
      omega
    rw [h _ hlt]
  · split
    · -- top-level union with at least two parts
      rename_i hu
      have h2 : 2 ≤ (splitUnion t).length := by
        rcases Bool.and_eq_true_iff.mp hu with ⟨_, hgt⟩
        simpa using of_decide_eq_true hgt
      rw [optMap_congr (fun p => conv1 (trim p)) (fun p => conv2 (trim p))]
      intro q hq
      apply h
      have hb := splitUnion_mem_length_strict t q h2 hq
      have := trim_length_le q
      omega
    · split
      · -- parenthesised tuple
        have hinner : ((t.drop 1).dropLast).length < t.length := by
          have h1 := List.length_dropLast (t.drop 1)
          have h2 := List.length_drop 1 t
          omega
        split
        · rw [optMap_congr (fun q => conv1 (trim q)) (fun q => conv2 (trim q))]
          intro q hq
          apply h
          have hb := splitByComma_mem_length _ q hq
          have := trim_length_le q
          omega
        · exact h _ hinner
      · split
        · -- array suffix
          have hlt : (t.dropLast.dropLast).length < t.length := by
            have h1 := List.length_dropLast t
            have h2 := List.length_dropLast t.dropLast
            omega
          rw [h _ hlt]
        · split
          · -- table<K, V>
            have hinner : ((t.drop 6).dropLast).length < t.length := by
              have h1 := List.length_dropLast (t.drop 6)
              have h2 := List.length_drop 6 t
              omega
            split
            · rename_i a b heq
              have hmem : a ∈ splitByComma ((t.drop 6).dropLast) ∧
                  b ∈ splitByComma ((t.drop 6).dropLast) := by
                rw [heq]; simp
              have hba : (trim a).length < t.length := by
                have h1 := splitByComma_mem_length _ a hmem.1
                have h2 := trim_length_le a
                omega
              have hbb : (trim b).length < t.length := by
                have h1 := splitByComma_mem_length _ b hmem.2
                have h2 := trim_length_le b
                omega
              rw [h _ hba, h _ hbb]
            · rfl
          · split
            · exact hp
            · rfl

theorem convertCore_congr (conv1 conv2 pft1 pft2 : Chars → Option Chars) (t : Chars)
    (h : ∀ u : Chars, u.length < t.length → conv1 u = conv2 u)
    (hp : pft1 t = pft2 t) :
    convertCore conv1 pft1 t = convertCore conv2 pft2 t := by
  unfold convertCore
  split
  · rfl
  · rename_i hne
    have hne1 : 1 ≤ t.length := by
      cases htl : t with
      | nil => exact absurd htl hne
      | cons a l => simp
    split
    · rfl
    · split
      · rename_i hsuf
        have hlt : (trim (stripBarNil t)).length < t.length := by
          have h1 := trim_length_le (stripBarNil t)
          have h2 : (stripBarNil t).length < t.length := by
            rcases Bool.or_eq_true_iff.mp hsuf with ha | hb
            · exact stripBarNil_strict t (Or.inr ha)
            · exact stripBarNil_strict t (Or.inl hb)
          omega
        rw [h _ hlt]
      · split
        · rfl
        · exact convertTail_congr conv1 conv2 pft1 pft2 t h hp hne1

theorem isSome_map (o : Option α) (f : α → β) : ((o.map f)).isSome = o.isSome := by
  cases o <;> rfl

theorem pftRet_isSome (conv : Chars → Option Chars) (rest : Chars)
    (h : ∀ u : Chars, u.length + 1 ≤ rest.length → (conv u).isSome = true) :
    (pftRet conv rest).isSome = true := by
  simp only [pftRet]
  split
  · rename_i hcol
    have hrest : 1 ≤ rest.length := by
      rw [hasPre, List.isPrefixOf_iff_prefix] at hcol
      obtain ⟨u, hu⟩ := hcol
      rw [← hu]; simp [str]
    have hb0 : (trim (rest.drop 1)).length + 1 ≤ rest.length := by
      have h1 := trim_length_le (rest.drop 1)
      have h2 := List.length_drop 1 rest
      omega
    have hr1 : (match subIdx (str " --") (trim (rest.drop 1)) with
        | some i => trim ((trim (rest.drop 1)).take i)
        | none => trim (rest.drop 1)).length ≤ (trim (rest.drop 1)).length := by
      split
      · exact trim_take_length_le _ _
      · exact le_refl _
    have key : ∀ r2 : Chars, r2.length + 1 ≤ rest.length →
        (if (splitByComma r2).length > 1 then
          (optMap (fun q => conv (trim q)) (splitByComma r2)).map
            (fun rs => str "LuaMultiReturn<[" ++ joinSep (str ", ") rs ++ str "]>")
         else conv r2).isSome = true := by
      intro r2 hb
      split
      · rw [isSome_map]
        apply optMap_isSome
        intro q hq
        apply h
        have h1 := splitByComma_mem_length r2 q hq
        have h2 := trim_length_le q
        omega
      · exact h r2 hb
    apply key
    split
    · exact le_trans (Nat.succ_le_succ (le_trans (trim_take_length_le _ _) hr1)) hb0
    · exact le_trans (Nat.succ_le_succ hr1) hb0
  · rfl

theorem renderParam_isSome (conv : Chars → Option Chars) (p : FunParam)
    (h : (conv p.type).isSome = true) : (renderParam conv p).isSome = true := by
  simp only [renderParam]
  split
  · rfl
  · rw [isSome_map]
    exact h

theorem pftBody_isSome (conv : Chars → Option Chars) (s : Chars)
    (h : ∀ u : Chars, u.length < s.length → (conv u).isSome = true)
    (hA : (conv (str "any")).isSome = true)
    (hA2 : (conv (str "any[]")).isSome = true) :
    (pftBody conv s).isSome = true := by
  simp only [pftBody]
  split
  · rfl
  · rename_i sp hsp
    split
    · rfl
    · rename_i ep hep
      have hepb := findMatchingParen_bound s sp ep hep
      have hps : (sliceN (sp + 1) ep s).length + 1 ≤ s.length :=
        sliceN_length_le (sp + 1) ep s hepb.2
      have hrest : (trim (s.drop (ep + 1))).length + 1 ≤ s.length := by
        have h1 := trim_length_le (s.drop (ep + 1))
        have h2 := List.length_drop (ep + 1) s
        omega
      have hret := pftRet_isSome conv (trim (s.drop (ep + 1)))
        (fun u hu => h u (by omega))
      cases hr : pftRet conv (trim (s.drop (ep + 1))) with
      | none => rw [hr] at hret; simp at hret
      | some rt =>
        simp only [Option.some_bind]
        rw [isSome_map]
        apply optMap_isSome
        intro p hp
        apply renderParam_isSome
        rcases parseParams_type_bound _ p hp with hb | hb | hb
        · exact h _ (by omega)
        · rw [hb]; exact hA
        · rw [hb]; exact hA2

theorem convertTail_isSome (conv pft : Chars → Option Chars) (t : Chars)
    (h : ∀ u : Chars, u.length < t.length → (conv u).isSome = true)
    (hp : (pft t).isSome = true) (hne1 : 1 ≤ t.length) :
    (convertTail conv pft t).isSome = true := by
  simp only [convertTail]
  split
  · rw [isSome_map]
    apply h
    have := List.length_dropLast t
    omega
  · split
    · rename_i hu
      have h2 : 2 ≤ (splitUnion t).length := by
        rcases Bool.and_eq_true_iff.mp hu with ⟨_, hgt⟩
        simpa using of_decide_eq_true hgt
      rw [isSome_map]
      apply optMap_isSome
      intro q hq
      apply h
      have hb := splitUnion_mem_length_strict t q h2 hq
      have := trim_length_le q
      omega
    · split
      · have hinner : ((t.drop 1).dropLast).length < t.length := by
          have h1 := List.length_dropLast (t.drop 1)
          have h2 := List.length_drop 1 t
          omega
        split
        · rw [isSome_map]
          apply optMap_isSome
          intro q hq
          apply h
          have hb := splitByComma_mem_length _ q hq
          have := trim_length_le q
          omega
        · exact h _ hinner
      · split
        · rw [isSome_map]
          apply h
          have h1 := List.length_dropLast t
          have h2 := List.length_dropLast t.dropLast
          omega
        · split
          · have hinner : ((t.drop 6).dropLast).length < t.length := by
              have h1 := List.length_dropLast (t.drop 6)
              have h2 := List.length_drop 6 t
              omega
            split
            · rename_i a b heq
              have hmem : a ∈ splitByComma ((t.drop 6).dropLast) ∧
                  b ∈ splitByComma ((t.drop 6).dropLast) := by
                rw [heq]; simp
              have hba : (trim a).length < t.length := by
                have h1 := splitByComma_mem_length _ a hmem.1
                have h2 := trim_length_le a
                omega
              have hbb : (trim b).length < t.length := by
                have h1 := splitByComma_mem_length _ b hmem.2
                have h2 := trim_length_le b
                omega
              have hca := h _ hba
              have hcb := h _ hbb
              cases hra : conv (trim a) with
              | none => rw [hra] at hca; simp at hca
              | some ra =>
                simp only [Option.some_bind]
                rw [isSome_map]
                exact hcb
            · rfl
          · split
            · exact hp
            · rfl

theorem convertCore_isSome (conv pft : Chars → Option Chars) (t : Chars)
    (h : ∀ u : Chars, u.length < t.length → (conv u).isSome = true)
    (hp : (pft t).isSome = true) :
    (convertCore conv pft t).isSome = true := by
  simp only [convertCore]
  split
  · rfl
  · rename_i hne
    have hne1 : 1 ≤ t.length := by
      cases htl : t with
      | nil => exact absurd htl hne
      | cons a l => simp
    split
    · rfl
    · split
      · rename_i hsuf
        rw [isSome_map]
        apply h
        have h1 := trim_length_le (stripBarNil t)
        have h2 : (stripBarNil t).length < t.length := by
          rcases Bool.or_eq_true_iff.mp hsuf with ha | hb
          · exact stripBarNil_strict t (Or.inr ha)
          · exact stripBarNil_strict t (Or.inl hb)
        omega
      · split
        · rfl
        · exact convertTail_isSome conv pft t h hp hne1

theorem splitUnion_mem_length (t p : Chars) (hp : p ∈ splitUnion t) :
    p.length ≤ t.length := by
  have := splitUnionGo_mem_length t 0 [] p hp
  simpa using this

theorem aliasFields_isSome (conv : Chars → Option Chars) (l : List Chars)
    (h : ∀ part ∈ l, ∀ ci : Nat, charIdx ':' part = some ci →
      (conv (trim (part.drop (ci + 1)))).isSome = true) :
    (aliasFields conv l).isSome = true := by
  induction l with
  | nil => rfl
  | cons part ps ih =>
    simp only [aliasFields]
    split
    · rename_i ci hci
      have hc := h part (by simp) ci hci
      cases hcv : conv (trim (part.drop (ci + 1))) with
      | none => rw [hcv] at hc; simp at hc
      | some ft =>
        simp only [Option.some_bind]
        rw [isSome_map]
        exact ih (fun q hq => h q (by simp [hq]))
    · exact ih (fun q hq => h q (by simp [hq]))

theorem aliasBody_isSome (conv pft : Chars → Option Chars) (s : Chars)
    (h : ∀ u : Chars, u.length ≤ (trim s).length → (conv u).isSome = true)
    (hq : ∀ u : Chars, u.length ≤ (trim s).length → (pft u).isSome = true) :
    (aliasBody conv pft s).isSome = true := by
  simp only [aliasBody]
  split
  · split
    · rfl
    · rw [isSome_map]
      apply aliasFields_isSome
      intro part hpart ci hci
      apply h
      have h1 := splitByComma_mem_length _ part hpart
      have h2 := trim_length_le (part.drop (ci + 1))
      have h3 := List.length_drop (ci + 1) part
      have h4 : (trim (((trim s).drop 1).dropLast)).length ≤ (trim s).length := by
        have h5 := trim_length_le (((trim s).drop 1).dropLast)
        have h6 := List.length_dropLast ((trim s).drop 1)
        have h7 := List.length_drop 1 (trim s)
        omega
      omega
  · split
    · rw [isSome_map]
      apply optMap_isSome
      intro p hp
      have hb : (trim p).length ≤ (trim s).length := by
        have h1 := splitUnion_mem_length _ p hp
        have h2 := trim_length_le p
        omega
      split
      · rw [isSome_map]
        exact hq _ hb
      · exact h _ hb
    · exact h _ (le_refl _)

theorem convertF_step : ∀ k s, 2 * s.length + 2 ≤ k → convertF k s = convertF (k + 1) s := by
  intro k
  induction k using Nat.strong_induction_on with
  | _ k ih =>
    intro s hk
    rcases k with _ | j
    · omega
    · by_cases hnil : s = []
      · subst hnil
        rfl
      · have hs1 : 1 ≤ s.length := List.length_pos.mpr hnil
        have hj3 : 2 * s.length + 1 ≤ j := by omega
        have ht := stripComments_length_le (trim s)
        have ht2 := trim_length_le s
        simp only [convertF, convertBody]
        apply convertCore_congr
        · intro u hu
          exact ih j (by omega) u (by omega)
        · apply pftBody_congr
          · intro u hu
            exact ih j (by omega) u (by omega)
          · obtain ⟨j', rfl⟩ : ∃ j', j = j' + 1 := ⟨j - 1, by omega⟩
            exact (convertF_any j').trans (convertF_any (j' + 1)).symm
          · obtain ⟨j', rfl⟩ : ∃ j', j = j' + 2 := ⟨j - 2, by omega⟩
            exact (convertF_anyArr j').trans (convertF_anyArr (j' + 1)).symm

theorem convertF_stable (s : Chars) :
    ∀ k, 2 * s.length + 2 ≤ k → convertF k s = convertF (2 * s.length + 2) s := by
  intro k hk
  induction k, hk using Nat.le_induction with
  | base => rfl
  | succ n hn ihn => rw [← convertF_step n s hn, ihn]

theorem convertF_isSome : ∀ k s, 2 * s.length + 2 ≤ k → (convertF k s).isSome = true := by
  intro k
  induction k using Nat.strong_induction_on with
  | _ k ih =>
    intro s hk
    rcases k with _ | j
    · omega
    · by_cases hnil : s = []
      · subst hnil
        rfl
      · have hs1 : 1 ≤ s.length := List.length_pos.mpr hnil
        have hj3 : 2 * s.length + 1 ≤ j := by omega
        have ht := stripComments_length_le (trim s)
        have ht2 := trim_length_le s
        simp only [convertF, convertBody]
        apply convertCore_isSome
        · intro u hu
          exact ih j (by omega) u (by omega)
        · apply pftBody_isSome
          · intro u hu
            exact ih j (by omega) u (by omega)
          · obtain ⟨j', rfl⟩ : ∃ j', j = j' + 1 := ⟨j - 1, by omega⟩
            rfl
          · obtain ⟨j', rfl⟩ : ∃ j', j = j' + 2 := ⟨j - 2, by omega⟩
            rfl

theorem parseFunTypeF_isSome (k : Nat) (s : Chars) (hk : 2 * s.length + 1 ≤ k) :
    (parseFunTypeF k s).isSome = true := by
  rcases k with _ | j
  · omega
  · by_cases hnil : s = []
    · subst hnil
      rfl
    · have hs1 : 1 ≤ s.length := List.length_pos.mpr hnil
      simp only [parseFunTypeF]
      apply pftBody_isSome
      · intro u hu
        exact convertF_isSome j u (by omega)
      · obtain ⟨j', rfl⟩ : ∃ j', j = j' + 1 := ⟨j - 1, by omega⟩
        rfl
      · obtain ⟨j', rfl⟩ : ∃ j', j = j' + 2 := ⟨j - 2, by omega⟩
        rfl

theorem convertLuaAliasToTSF_isSome (k : Nat) (s : Chars) (hk : 2 * s.length + 3 ≤ k) :
    (convertLuaAliasToTSF k s).isSome = true := by
  rcases k with _ | j
  · omega
  · have ht2 := trim_length_le s
    simp only [convertLuaAliasToTSF]
    apply aliasBody_isSome
    · intro u hu
      exact convertF_isSome j u (by omega)
    · intro u hu
      apply pftBody_isSome
      · intro v hv
        exact convertF_isSome j v (by omega)
      · obtain ⟨j', rfl⟩ : ∃ j', j = j' + 1 := ⟨j - 1, by omega⟩
        rfl
      · obtain ⟨j', rfl⟩ : ∃ j', j = j' + 2 := ⟨j - 2, by omega⟩
        rfl

/-! ## Claim theorems -/

/-- C9: the type-expression translator is total: with their canonical fuel
(twice the input length plus a constant), `convertLuaTypeToTS`,
`parseFunType` and `convertLuaAliasToTS` always produce a result — every
recursive call is on a strictly shorter argument — and giving more fuel
never changes the answer. -/
theorem C9_translator_total :
    ∀ s : Chars,
      (convertF (2 * s.length + 2) s).isSome = true ∧
      (parseFunTypeF (2 * s.length + 1) s).isSome = true ∧
      (convertLuaAliasToTSF (2 * s.length + 3) s).isSome = true ∧
      (∀ k, 2 * s.length + 2 ≤ k → convertF k s = convertF (2 * s.length + 2) s) :=
  fun s => ⟨convertF_isSome _ s (le_refl _), parseFunTypeF_isSome _ s (le_refl _),
    convertLuaAliasToTSF_isSome _ s (le_refl _), fun k hk => convertF_stable s k hk⟩

/-- C9 witness: the totality theorem evaluated at a concrete input. -/
theorem C9_translator_total_witness :
    (convertF (2 * (str "number|nil").length + 2) (str "number|nil")).isSome = true ∧
    convertF 30 (str "number|nil") = convertF (2 * (str "number|nil").length + 2)
      (str "number|nil") :=
  ⟨(C9_translator_total (str "number|nil")).1,
   (C9_translator_total (str "number|nil")).2.2.2 30 (by decide)⟩

/-- C2 counterexample: the classifier accepts a class whose single data
field has raw type `Number`, although its *translated* type is the
passthrough `Number`, not the numeric primitive — so "enum-like iff every
data field's translated type is numeric" is false as stated. -/
theorem C2_enum_counterexample :
    isEnumLikeClass ⟨str "flags", [], [⟨str "x", str "Number", none, false⟩], []⟩ = true ∧
    convertLuaTypeToTS (str "Number") ≠ str "number" := by
  exact ⟨by decide, by decide⟩

/-- C2 amended: the classifier tests the raw (untranslated) field type,
lower-cased and trimmed, against `number`/`integer`; the concrete examples
(two `integer` data fields are enum-like, adding one method disqualifies)
hold as stated. -/
theorem C2_enum_amended :
    (∀ cls : ParsedClass,
      isEnumLikeClass cls = true ↔
        (cls.dataFields ≠ [] ∧ cls.fields = [] ∧ cls.indexSignatures = [] ∧
          ∀ f ∈ cls.dataFields,
            trim (f.type.map Char.toLower) = str "number" ∨
            trim (f.type.map Char.toLower) = str "integer")) ∧
    isEnumLikeClass ⟨str "e", [],
      [⟨str "a", str "integer", none, false⟩, ⟨str "b", str "integer", none, false⟩],
      []⟩ = true ∧
    isEnumLikeClass ⟨str "e", [⟨str "m", str "fun(): void", none, true⟩],
      [⟨str "a", str "integer", none, false⟩, ⟨str "b", str "integer", none, false⟩],
      []⟩ = false := by
  refine ⟨?_, by decide, by decide⟩
  intro cls
  simp only [isEnumLikeClass, Bool.or_eq_true, Bool.not_eq_true', decide_eq_false_iff_not,
    decide_eq_true_eq, gt_iff_lt, not_lt]
  constructor
  · intro h
    split at h
    · simp at h
    · rename_i hcond
      push_neg at hcond
      obtain ⟨⟨hd, hf⟩, hi⟩ := hcond
      rw [List.all_eq_true] at h
      refine ⟨List.length_pos.mp (by omega), List.length_eq_zero.mp (by omega),
        List.length_eq_zero.mp (by omega), ?_⟩
      intro f hf2
      have := h f hf2
      rcases Bool.or_eq_true_iff.mp this with h5 | h5
      · exact Or.inl (of_decide_eq_true h5)
      · exact Or.inr (of_decide_eq_true h5)
  · rintro ⟨h1, h2, h3, h4⟩
    split
    · rename_i hc
      exfalso
      rcases hc with (hc | hc) | hc
      · exact absurd (List.length_pos.mpr h1) (by omega)
      · rw [h2] at hc; simp at hc
      · rw [h3] at hc; simp at hc
    · rw [List.all_eq_true]
      intro f hf
      rcases h4 f hf with h5 | h5 <;> simp [h5]

/-- C8 counterexample: the kick_external_filters_helper patch is a global
replace of a literal pattern by a comma, and on a text holding two
overlapping copies of the pattern a second application removes more —
applying the module's post-processing twice differs from applying it
once. -/
theorem C8_postprocess_counterexample :
    applyPostProcessing (str "common/utility/kick_external_filters_helper")
        (applyPostProcessing (str "common/utility/kick_external_filters_helper")
          (str ", string|nil: any, string|nil: any,")) ≠
      applyPostProcessing (str "common/utility/kick_external_filters_helper")
        (str ", string|nil: any, string|nil: any,") := by
  decide

/-- C8 amended: for every module identity other than the four with a
declared patch, the post-processor returns the text unchanged (hence
trivially idempotent), so a patch never affects another module's output;
the declared patch functions themselves are not idempotent on every text. -/
theorem C8_postprocess_amended :
    ∀ (m t : Chars),
      m ≠ str "common/izi_sdk" → m ≠ str "common/ow_menu_api" →
      m ≠ str "common/utility/kick_external_filters_helper" →
      m ≠ str "common/utility/spell_sequence_helper" →
      applyPostProcessing m t = t ∧
        applyPostProcessing m (applyPostProcessing m t) = applyPostProcessing m t := by
  intro m t h1 h2 h3 h4
  simp only [applyPostProcessing, if_neg h1, if_neg h2, if_neg h3, if_neg h4]
  exact ⟨trivial, trivial⟩

/-- C8 amended witness: a module without a patch at a concrete text. -/
theorem C8_postprocess_amended_witness :
    applyPostProcessing (str "common/enums") (str "interface foo; junk") =
        str "interface foo; junk" ∧
      applyPostProcessing (str "common/enums")
          (applyPostProcessing (str "common/enums") (str "interface foo; junk")) =
        applyPostProcessing (str "common/enums") (str "interface foo; junk") :=
  C8_postprocess_amended (str "common/enums") (str "interface foo; junk")
    (by decide) (by decide) (by decide) (by decide)

/-- "No `|` at delimiter-nesting depth zero", phrased over the same
depth-counting discipline as `splitUnion`. -/
def noTopBar : Int → Chars → Bool
  | _, [] => true
  | d, c :: cs =>
    if isOpenDelim c then noTopBar (d + 1) cs
    else if isCloseDelim c then noTopBar (d - 1) cs
    else (!(c = '|' && d = 0)) && noTopBar d cs

theorem splitUnionGo_noTopBar (cs : Chars) :
    ∀ (d : Int) (cur : Chars), noTopBar d cs = true →
      splitUnionGo cs d cur =
        if trim (cur ++ cs) = [] then [] else [trim (cur ++ cs)] := by
  induction cs with
  | nil =>
    intro d cur h
    simp [splitUnionGo]
  | cons c cs ih =>
    intro d cur h
    by_cases h1 : isOpenDelim c = true
    · simp only [noTopBar, h1, if_true] at h
      simp only [splitUnionGo, h1, if_true]
      rw [ih _ _ h]
      simp [List.append_assoc]
    · by_cases h2 : isCloseDelim c = true
      · simp only [noTopBar, h1, h2, if_true, if_false, Bool.false_eq_true] at h
        simp only [splitUnionGo, h1, h2, if_true, if_false, Bool.false_eq_true]
        rw [ih _ _ h]
        simp [List.append_assoc]
      · simp only [noTopBar, h1, h2, if_true, if_false, Bool.false_eq_true,
          Bool.and_eq_true, Bool.not_eq_true'] at h
        simp only [splitUnionGo, h1, h2, if_true, if_false, Bool.false_eq_true]
        rw [if_neg, ih _ _ h.2]
        · simp [List.append_assoc]
        · rw [Bool.and_eq_true]
          intro hcon
          have hfalse := h.1
          rw [hcon.1, hcon.2] at hfalse
          simp at hfalse

theorem dedupFirstAux_sublist (xs : List Chars) :
    ∀ seen, (dedupFirstAux seen xs).Sublist xs := by
  induction xs with
  | nil => intro seen; simp [dedupFirstAux]
  | cons x xs ih =>
    intro seen
    simp only [dedupFirstAux]
    split
    · exact (ih seen).trans (List.sublist_cons_self x xs)
    · exact (ih (x :: seen)).cons₂ x

theorem dedupFirstAux_mem (xs : List Chars) :
    ∀ seen a, a ∈ dedupFirstAux seen xs ↔ (a ∈ xs ∧ a ∉ seen) := by
  induction xs with
  | nil => intro seen a; simp [dedupFirstAux]
  | cons x xs ih =>
    intro seen a
    simp only [dedupFirstAux]
    split
    · rename_i hx
      rw [ih seen a]
      constructor
      · rintro ⟨ha, hs⟩
        exact ⟨List.mem_cons_of_mem x ha, hs⟩
      · rintro ⟨ha, hs⟩
        rcases List.mem_cons.mp ha with rfl | ha2
        · exact absurd hx hs
        · exact ⟨ha2, hs⟩
    · rename_i hx
      rw [List.mem_cons, ih (x :: seen) a]
      constructor
      · rintro (rfl | ⟨ha, hs⟩)
        · exact ⟨List.mem_cons_self _ _, hx⟩
        · exact ⟨List.mem_cons_of_mem x ha, fun hc => hs (List.mem_cons_of_mem x hc)⟩
      · rintro ⟨ha, hs⟩
        by_cases hax : a = x
        · exact Or.inl hax
        · rcases List.mem_cons.mp ha with rfl | ha2
          · exact absurd rfl hax
          · refine Or.inr ⟨ha2, fun hc => ?_⟩
            rcases List.mem_cons.mp hc with rfl | hc2
            · exact hax rfl
            · exact hs hc2

theorem dedupFirstAux_nodup (xs : List Chars) :
    ∀ seen, (dedupFirstAux seen xs).Nodup := by
  induction xs with
  | nil => intro seen; simp [dedupFirstAux]
  | cons x xs ih =>
    intro seen
    simp only [dedupFirstAux]
    split
    · exact ih seen
    · refine List.Nodup.cons ?_ (ih (x :: seen))
      intro hc
      have := (dedupFirstAux_mem xs (x :: seen) x).mp hc
      exact this.2 (List.mem_cons_self _ _)

/-- C5: depth-aware union translation with duplicate elimination:
`number|number` translates to the single member `number`; the depth-aware
split of the `fun(...)` example finds only the `|` after the closing
parenthesis; a string with no depth-zero `|` is never split; duplicate
elimination keeps first occurrences in stable order (a sublist without
duplicates and with the same members); and whenever the union branch is
reached with at least two parts, the translation is the deduplicated
join of the parts' translations. -/
theorem C5_union_translation :
    convertLuaTypeToTS (str "number|number") = str "number" ∧
    splitUnion (str "fun(x: table<string,number>): boolean|nil") =
      [str "fun(x: table<string,number>): boolean", str "nil"] ∧
    (∀ s : Chars, noTopBar 0 s = true →
      splitUnion s = if trim s = [] then [] else [trim s]) ∧
    (∀ xs : List Chars, (dedupFirst xs).Sublist xs ∧
      (∀ a, a ∈ dedupFirst xs ↔ a ∈ xs) ∧ (dedupFirst xs).Nodup) ∧
    (∀ s : Chars, stripComments (trim s) = s → s ≠ [] → s ≠ str "nil" →
      hasSuf (str "| nil") s = false → hasSuf (str "|nil") s = false →
      primitiveMap s = none →
      (hasSuf (str "?") s && !(s.contains '|')) = false →
      s.contains '|' = true → 2 ≤ (splitUnion s).length →
      convertLuaTypeToTS s =
        joinSep (str " | ")
          (dedupFirst ((splitUnion s).map (fun p => convertLuaTypeToTS (trim p))))) := by
  refine ⟨by decide, by decide, ?_, ?_, ?_⟩
  · intro s h
    have := splitUnionGo_noTopBar s 0 [] h
    simpa [splitUnion] using this
  · intro xs
    refine ⟨dedupFirstAux_sublist xs [], ?_, dedupFirstAux_nodup xs []⟩
    intro a
    rw [dedupFirst, dedupFirstAux_mem xs [] a]
    simp
  · intro s hstrip hne hnil h1 h2 hprim hq hbar hparts
    have key : ∀ p ∈ splitUnion s,
        convertF (2 * s.length + 1) (trim p) = some (convertLuaTypeToTS (trim p)) := by
      intro p hp
      have hlt : (trim p).length < s.length :=
        lt_of_le_of_lt (trim_length_le p) (splitUnion_mem_length_strict s p hparts hp)
      have hb : 2 * (trim p).length + 2 ≤ 2 * s.length + 1 := by omega
      rw [convertF_stable (trim p) _ hb]
      have hs := convertF_isSome (2 * (trim p).length + 2) (trim p) (le_refl _)
      obtain ⟨r, hr⟩ := Option.isSome_iff_exists.mp hs
      rw [hr]
      unfold convertLuaTypeToTS
      rw [hr]
      rfl
    show (convertF (2 * s.length + 2) s).getD [] = _
    have h22 : 2 * s.length + 2 = (2 * s.length + 1) + 1 := rfl
    have hstep : convertF (2 * s.length + 1 + 1) s =
        convertCore (convertF (2 * s.length + 1)) (pftBody (convertF (2 * s.length + 1)))
          (stripComments (trim s)) := rfl
    rw [h22, hstep, hstrip]
    simp only [convertCore]
    rw [if_neg hne, if_neg hnil, if_neg (by rw [h1, h2]; simp), hprim]
    simp only [convertTail]
    rw [if_neg (by rw [hq]; simp), if_pos (by rw [hbar]; simp; omega)]
    rw [optMap_eq_some_map _ (fun p => convertLuaTypeToTS (trim p)) _ key]
    rfl

/-- C5 witness: the union-branch equation instantiated at `number|number`. -/
theorem C5_union_translation_witness :
    convertLuaTypeToTS (str "number|number") =
      joinSep (str " | ")
        (dedupFirst ((splitUnion (str "number|number")).map
          (fun p => convertLuaTypeToTS (trim p)))) :=
  C5_union_translation.2.2.2.2 (str "number|number") (by decide) (by decide) (by decide)
    (by decide) (by decide) (by decide) (by decide) (by decide) (by decide)

/-- C3: receiver handling in the function-type parser: the concrete example
yields receiver `foo`, one positional parameter and a boolean return; a
parameter named `self` is always rendered as a `this`-binding carrying its
raw type; and whenever no parameter is named `self`, the emitted parameter
list starts with the synthesized receiver-less marker `this: void`. -/
theorem C3_receiver_handling :
    parseFunType (str "fun(self: foo, x: number): boolean") =
      str "(this: foo, x: number) => boolean" ∧
    (∀ (conv : Chars → Option Chars) (p : FunParam), p.name = str "self" →
      renderParam conv p = some (str "this: " ++ p.type)) ∧
    (∀ (conv : Chars → Option Chars) (s out : Chars) (sp ep : Nat),
      charIdx '(' s = some sp → findMatchingParen s sp = some ep →
      (∀ p ∈ parseParams (sliceN (sp + 1) ep s), p.name ≠ str "self") →
      pftBody conv s = some out →
      ∃ tl rt, out = str "(" ++ joinSep (str ", ") (str "this: void" :: tl) ++
        str ") => " ++ rt) := by
  refine ⟨by decide, ?_, ?_⟩
  · intro conv p hp
    simp only [renderParam, hp, if_pos]
  · intro conv s out sp ep hci hfm hns hb
    simp only [pftBody, hci, hfm] at hb
    cases hr : pftRet conv (trim (s.drop (ep + 1))) with
    | none => rw [hr] at hb; simp at hb
    | some rt =>
      rw [hr] at hb
      simp only [Option.some_bind] at hb
      cases ho : optMap (renderParam conv) (parseParams (sliceN (sp + 1) ep s)) with
      | none => rw [ho] at hb; simp at hb
      | some ts =>
        rw [ho] at hb
        simp only [Option.map_some', Option.some.injEq] at hb
        refine ⟨ts, rt, ?_⟩
        rw [← hb]
        have hh : (match parseParams (sliceN (sp + 1) ep s) with
            | [] => true
            | p :: _ => decide (p.name ≠ str "self")) = true := by
          cases hpp : parseParams (sliceN (sp + 1) ep s) with
          | nil => rfl
          | cons p rest =>
            exact decide_eq_true (hns p (by rw [hpp]; simp))
        rw [hh]
        simp

/-- C3 witness: the no-`self` branch of the theorem at a concrete
function-type string. -/
theorem C3_receiver_handling_witness :
    (∃ tl rt, (parseFunTypeF 100 (str "fun(x: number): boolean")).getD [] =
      str "(" ++ joinSep (str ", ") (str "this: void" :: tl) ++ str ") => " ++ rt) ∧
    renderParam (fun u => some u) ⟨str "self", str "foo", false, false⟩ =
      some (str "this: foo") := by
  constructor
  · have h := C3_receiver_handling.2.2 (convertF 99)
      (str "fun(x: number): boolean")
      ((parseFunTypeF 100 (str "fun(x: number): boolean")).getD [])
      3 13 (by decide) (by decide) (by decide) ?_
    · exact h
    · show pftBody (convertF 99) (str "fun(x: number): boolean") = some _
      have hsome := parseFunTypeF_isSome 100 (str "fun(x: number): boolean") (by decide)
      obtain ⟨r, hr⟩ := Option.isSome_iff_exists.mp hsome
      have hr2 : pftBody (convertF 99) (str "fun(x: number): boolean") = some r := hr
      rw [hr2, hr]
      rfl
  · exact C3_receiver_handling.2.1 (fun u => some u) ⟨str "self", str "foo", false, false⟩ rfl

/-! Reduction helpers for doc-comment lines: a line whose trimmed form
starts with the doc marker can match none of the bare-declaration
patterns, and a directive's leading keyword determines which matchers can
fire. -/

theorem matchFuncDecl_doc (v : Chars) : matchFuncDecl (str "---" ++ v) = none := rfl
theorem matchFuncColon_doc (v : Chars) : matchFuncColon (str "---" ++ v) = none := rfl
theorem matchSubclassAssign_doc (v : Chars) :
    matchSubclassAssign (str "---" ++ v) = none := rfl
theorem hasPre_doc (v : Chars) : hasPre (str "---") (str "---" ++ v) = true := by
  simp [hasPre, str, List.isPrefixOf]
theorem drop3_doc (v : Chars) : (str "---" ++ v).drop 3 = v := rfl

/-- A line whose trimmed text is `---` followed by `v` is handled entirely
by the directive interpreter, on `v` with leading whitespace removed. -/
theorem stepLine_doc (st : ParseState) (line v : Chars)
    (hv : trim line = str "---" ++ v) :
    stepLine st line = stepDirective st (v.dropWhile jsWhitespace) := by
  obtain ⟨cl, al, cc, cd, dme, pp, pr⟩ := st
  simp only [stepLine, hv, matchFuncDecl_doc, matchFuncColon_doc, matchSubclassAssign_doc,
    hasPre_doc, drop3_doc]
  cases cc <;> rfl

/-! ## Claim-level theorems for the parser and emission layers -/

theorem matchAtType_ret (u : Chars) : matchAtType (str "@return" ++ u) = none := rfl
theorem matchAtAlias_ret (u : Chars) : matchAtAlias (str "@return" ++ u) = none := rfl
theorem matchAtClass_ret (u : Chars) : matchAtClass (str "@return" ++ u) = none := rfl
theorem matchAtParam_ret (u : Chars) : matchAtParam (str "@return" ++ u) = none := rfl

theorem hasPre_exists (p s : Chars) (h : hasPre p s = true) : ∃ u, s = p ++ u := by
  have := List.isPrefixOf_iff_prefix.mp h
  obtain ⟨u, hu⟩ := this
  exact ⟨u, hu.symm⟩

theorem stepDirective_ret (st : ParseState) (u body : Chars)
    (hm : matchAtReturn (str "@return" ++ u) = some body) :
    stepDirective st (str "@return" ++ u) =
      { st with pendingReturn := some (returnCleanup (trim body)) } := by
  simp only [stepDirective, matchAtType_ret, matchAtAlias_ret, matchAtClass_ret,
    matchAtParam_ret, hm]

example : parseFunType (str "fun(): foo bar") = str "(this: void) => foo bar" := by decide
example : parseFunType (str "fun(): nil nil") = str "(this: void) => nil nil" := by decide
example : returnCleanup (str "foo bar") = str "foo" := by decide
example : returnCleanup (str "nil nil") = str "any" := by decide
example : parseFunType (str "fun(): boolean -- comment") = str "(this: void) => boolean" := by decide
example : parseFunType (str "fun(): boolean Whether valid") = str "(this: void) => boolean" := by decide

/-- C4 counterexample: the function-type parser applies only the
comment-strip and capitalized-pair cuts to a return clause; it performs
neither the trailing-lowercase-word cut nor the dynamic-type fallback, so
`fun(): foo bar` keeps `foo bar` and `fun(): nil nil` keeps `nil nil`
verbatim, contradicting cleanup steps (c) and the `any` fallback as
attributed to the parser. -/
theorem C4_return_cleanup_counterexample :
    parseFunType (str "fun(): foo bar") = str "(this: void) => foo bar" ∧
    str "(this: void) => foo bar" ≠ str "(this: void) => foo" ∧
    parseFunType (str "fun(): nil nil") = str "(this: void) => nil nil" ∧
    str "(this: void) => nil nil" ≠ str "(this: void) => any" := by
  exact ⟨by decide, by decide, by decide, by decide⟩

/-- C4 amended: the trailing-lowercase-word cut and the dynamic-type
fallback happen in the `@return` directive handler (returnCleanup), which
stores the cleaned text in pendingReturn; the function-type parser itself
performs only the inline-comment strip and the capitalized-pair cut. -/
theorem C4_return_cleanup_amended (st : ParseState) (line v body : Chars)
    (hv : trim line = str "---" ++ v)
    (hm : matchAtReturn (v.dropWhile jsWhitespace) = some body) :
    stepLine st line = { st with pendingReturn := some (returnCleanup (trim body)) } ∧
    returnCleanup (str "foo bar") = str "foo" ∧
    returnCleanup (str "nil nil") = str "any" ∧
    parseFunType (str "fun(): boolean -- comment") = str "(this: void) => boolean" ∧
    parseFunType (str "fun(): boolean Whether valid") = str "(this: void) => boolean" := by
  refine ⟨?_, by decide, by decide, by decide, by decide⟩
  rw [stepLine_doc st line v hv]
  have hpre : hasPre (str "@return") (v.dropWhile jsWhitespace) = true := by
    by_contra hnp
    rw [matchAtReturn, if_neg] at hm
    · exact Option.noConfusion hm
    · exact fun hh => hnp hh
  obtain ⟨u, hu⟩ := hasPre_exists _ _ hpre
  rw [hu] at hm ⊢
  exact stepDirective_ret st u body hm

theorem C4_return_cleanup_amended_witness :
    stepLine initState (str "---@return number trailing junk") =
      { initState with pendingReturn := some (str "any") } := by
  have h := C4_return_cleanup_amended initState (str "---@return number trailing junk")
    (str "@return number trailing junk") (str "number trailing junk") (by decide) (by decide)
  rw [h.1]
  decide

theorem matchAtType_fld (u : Chars) : matchAtType (str "@field" ++ u) = none := rfl
theorem matchAtAlias_fld (u : Chars) : matchAtAlias (str "@field" ++ u) = none := rfl
theorem matchAtClass_fld (u : Chars) : matchAtClass (str "@field" ++ u) = none := rfl
theorem matchAtParam_fld (u : Chars) : matchAtParam (str "@field" ++ u) = none := rfl
theorem matchAtReturn_fld (u : Chars) : matchAtReturn (str "@field" ++ u) = none := rfl

/-- C10: a `@field` doc-directive line (either form) encountered while no
class is active leaves the parser state completely unchanged: no class is
created, nothing is recorded, and the line is not appended to the pending
description. -/
theorem C10_orphan_field (st : ParseState) (line v : Chars)
    (hcc : st.currentClass = none)
    (hv : trim line = str "---" ++ v)
    (hf : hasPre (str "@field") (v.dropWhile jsWhitespace) = true) :
    stepLine st line = st := by
  rw [stepLine_doc st line v hv]
  obtain ⟨u, hu⟩ := hasPre_exists _ _ hf
  rw [hu]
  simp only [stepDirective, matchAtType_fld, matchAtAlias_fld, matchAtClass_fld,
    matchAtParam_fld, matchAtReturn_fld, hcc]
  cases h1 : matchAtFieldIndex (str "@field" ++ u) <;>
    cases h2 : matchAtField (str "@field" ++ u) <;> rfl

theorem C10_orphan_field_witness :
    stepLine initState (str "---@field foo number") = initState ∧
    stepLine initState (str "---@field [number] string") = initState :=
  ⟨C10_orphan_field initState (str "---@field foo number")
      (str "@field foo number") rfl (by decide) (by decide),
   C10_orphan_field initState (str "---@field [number] string")
      (str "@field [number] string") rfl (by decide) (by decide)⟩

theorem matchFuncDecl_nil : matchFuncDecl [] = none := rfl
theorem matchFuncColon_nil : matchFuncColon [] = none := rfl
theorem matchSubclassAssign_nil : matchSubclassAssign [] = none := rfl
theorem matchFuncDecl_dd (u : Chars) : matchFuncDecl (str "--" ++ u) = none := rfl
theorem matchFuncColon_dd (u : Chars) : matchFuncColon (str "--" ++ u) = none := rfl
theorem matchSubclassAssign_dd (u : Chars) : matchSubclassAssign (str "--" ++ u) = none := rfl
theorem hasPre_dd (u : Chars) : hasPre (str "--") (str "--" ++ u) = true := by
  simp [hasPre, str, List.isPrefixOf]
theorem matchFuncDecl_gg (u : Chars) : matchFuncDecl (str "_G." ++ u) = none := rfl
theorem matchFuncColon_gg (u : Chars) : matchFuncColon (str "_G." ++ u) = none := rfl
theorem hasPre_dd_gg (u : Chars) : hasPre (str "--") (str "_G." ++ u) = false := rfl
theorem hasPre_gg (u : Chars) : hasPre (str "_G.") (str "_G." ++ u) = true := by
  simp [hasPre, str, List.isPrefixOf]

theorem stepLine_noop_pending (st : ParseState) (line : Chars)
    (h0 : hasPre (str "---") (trim line) = false)
    (h : trim line = [] ∨ hasPre (str "--") (trim line) = true ∨
      hasPre (str "_G.") (trim line) = true) :
    (stepLine st line).pendingParams = st.pendingParams ∧
    (stepLine st line).pendingReturn = st.pendingReturn ∧
    (stepLine st line).currentDescription = st.currentDescription := by
  obtain ⟨cl, al, cc, cd, dme, pp, pr⟩ := st
  rcases h with he | hc | hg
  · have hst : stepLine ⟨cl, al, cc, cd, dme, pp, pr⟩ line = ⟨cl, al, cc, cd, dme, pp, pr⟩ := by
      simp only [stepLine, he, matchFuncDecl_nil, matchFuncColon_nil, matchSubclassAssign_nil]
      cases cc <;> rfl
    rw [hst]
    exact ⟨rfl, rfl, rfl⟩
  · obtain ⟨u, hu⟩ := hasPre_exists _ _ hc
    rw [hu] at h0
    have hst : stepLine ⟨cl, al, cc, cd, dme, pp, pr⟩ line = ⟨cl, al, cc, cd, dme, pp, pr⟩ := by
      simp only [stepLine, hu, matchFuncDecl_dd, matchFuncColon_dd, matchSubclassAssign_dd,
        h0, hasPre_dd, Bool.not_false, if_true, Bool.true_or, Bool.or_true, if_true]
    rw [hst]
    exact ⟨rfl, rfl, rfl⟩
  · obtain ⟨u, hu⟩ := hasPre_exists _ _ hg
    rw [hu] at h0
    cases hms : matchSubclassAssign (str "_G." ++ u) with
    | some pf =>
      cases cc with
      | some cur =>
        have hst : stepLine ⟨cl, al, some cur, cd, dme, pp, pr⟩ line =
            applySubclass ⟨cl, al, some cur, cd, dme, pp, pr⟩ pf.1 pf.2 cur := by
          simp only [stepLine, hu, matchFuncDecl_gg, matchFuncColon_gg, hms]
        rw [hst]
        exact ⟨rfl, rfl, rfl⟩
      | none =>
        have hst : stepLine ⟨cl, al, none, cd, dme, pp, pr⟩ line =
            ⟨cl, al, none, cd, dme, pp, pr⟩ := by
          simp only [stepLine, hu, matchFuncDecl_gg, matchFuncColon_gg, hms,
            h0, hasPre_dd_gg, hasPre_gg, Bool.not_false, if_true, Bool.or_true, if_true]
        rw [hst]
        exact ⟨rfl, rfl, rfl⟩
    | none =>
      have hst : stepLine ⟨cl, al, cc, cd, dme, pp, pr⟩ line =
          ⟨cl, al, cc, cd, dme, pp, pr⟩ := by
        simp only [stepLine, hu, matchFuncDecl_gg, matchFuncColon_gg, hms,
          h0, hasPre_dd_gg, hasPre_gg, Bool.not_false, if_true, Bool.or_true, if_true]
      rw [hst]
      exact ⟨rfl, rfl, rfl⟩

theorem stepLine_flush (st : ParseState) (line : Chars)
    (h0 : hasPre (str "---") (trim line) = false)
    (h1 : matchFuncDecl (trim line) = none)
    (h2 : matchFuncColon (trim line) = none)
    (h3 : matchSubclassAssign (trim line) = none)
    (h4 : ¬(trim line = []))
    (h5 : hasPre (str "--") (trim line) = false)
    (h6 : hasPre (str "_G.") (trim line) = false) :
    stepLine st line =
      { st with currentDescription := [], pendingParams := [], pendingReturn := none } := by
  obtain ⟨cl, al, cc, cd, dme, pp, pr⟩ := st
  have h4' : decide (trim line = []) = false := decide_eq_false h4
  simp only [stepLine, h1, h2, h3, h0, h4', h5, h6, Bool.not_false, if_true,
    Bool.or_false, Bool.false_or, Bool.or_self, if_false]
  cases cc <;> rfl

theorem matchAtType_par (u : Chars) : matchAtType (str "@param" ++ u) = none := rfl
theorem matchAtAlias_par (u : Chars) : matchAtAlias (str "@param" ++ u) = none := rfl
theorem matchAtClass_par (u : Chars) : matchAtClass (str "@param" ++ u) = none := rfl
theorem matchAtReturn_par (u : Chars) : matchAtReturn (str "@param" ++ u) = none := rfl
theorem matchAtFieldIndex_par (u : Chars) : matchAtFieldIndex (str "@param" ++ u) = none := rfl
theorem matchAtField_par (u : Chars) : matchAtField (str "@param" ++ u) = none := rfl

theorem stepDirective_par (st : ParseState) (u nameQ ptype : Chars)
    (hm : matchAtParam (str "@param" ++ u) = some (nameQ, ptype)) :
    stepDirective st (str "@param" ++ u) =
      { st with pendingParams := st.pendingParams ++ [⟨(if hasSuf (str "?") nameQ then nameQ.dropLast else nameQ), ptype, hasSuf (str "?") nameQ⟩] } := by
  simp only [stepDirective, matchAtType_par, matchAtAlias_par, matchAtClass_par, hm]

theorem stepDirective_par_none (st : ParseState) (u : Chars)
    (hm : matchAtParam (str "@param" ++ u) = none) :
    stepDirective st (str "@param" ++ u) = st := by
  obtain ⟨cl, al, cc, cd, dme, pp, pr⟩ := st
  simp only [stepDirective, matchAtType_par, matchAtAlias_par, matchAtClass_par, hm,
    matchAtReturn_par, matchAtFieldIndex_par, matchAtField_par]
  cases cc <;> rfl

/-- C7: a non-doc line that is blank, a plain comment, or `_G.`-prefixed
leaves pendingParams, pendingReturn and currentDescription unchanged; any
other non-doc line that matches no declaration form clears exactly those
three; hence a `@param` directive followed by such a flush line contributes
nothing: stepping the param line first yields the same state as not having
seen it. -/
theorem C7_flush_rule :
    (∀ (st : ParseState) (line : Chars), hasPre (str "---") (trim line) = false →
      (trim line = [] ∨ hasPre (str "--") (trim line) = true ∨
        hasPre (str "_G.") (trim line) = true) →
      (stepLine st line).pendingParams = st.pendingParams ∧
      (stepLine st line).pendingReturn = st.pendingReturn ∧
      (stepLine st line).currentDescription = st.currentDescription) ∧
    (∀ (st : ParseState) (line : Chars), hasPre (str "---") (trim line) = false →
      matchFuncDecl (trim line) = none → matchFuncColon (trim line) = none →
      matchSubclassAssign (trim line) = none → ¬(trim line = []) →
      hasPre (str "--") (trim line) = false → hasPre (str "_G.") (trim line) = false →
      stepLine st line =
        { st with currentDescription := [], pendingParams := [], pendingReturn := none }) ∧
    (∀ (st : ParseState) (pline v fline : Chars), trim pline = str "---" ++ v →
      hasPre (str "@param") (v.dropWhile jsWhitespace) = true →
      hasPre (str "---") (trim fline) = false →
      matchFuncDecl (trim fline) = none → matchFuncColon (trim fline) = none →
      matchSubclassAssign (trim fline) = none → ¬(trim fline = []) →
      hasPre (str "--") (trim fline) = false → hasPre (str "_G.") (trim fline) = false →
      stepLine (stepLine st pline) fline = stepLine st fline) := by
  refine ⟨stepLine_noop_pending, stepLine_flush, ?_⟩
  intro st pline v fline hpv hpp h0 h1 h2 h3 h4 h5 h6
  rw [stepLine_doc st pline v hpv]
  obtain ⟨u, hu⟩ := hasPre_exists _ _ hpp
  rw [hu]
  cases hm : matchAtParam (str "@param" ++ u) with
  | none => rw [stepDirective_par_none st u hm]
  | some nt =>
    rw [stepDirective_par st u nt.1 nt.2 (by rw [hm])]
    rw [stepLine_flush _ fline h0 h1 h2 h3 h4 h5 h6,
        stepLine_flush st fline h0 h1 h2 h3 h4 h5 h6]

theorem C7_flush_rule_witness :
    (stepLine initState (str "local x = 1") =
      { initState with currentDescription := [], pendingParams := [], pendingReturn := none }) ∧
    (stepLine (stepLine initState (str "---@param x number")) (str "local x = 1") =
      stepLine initState (str "local x = 1")) ∧
    ((stepLine initState (str "-- note")).pendingParams = initState.pendingParams ∧
      (stepLine initState (str "-- note")).pendingReturn = initState.pendingReturn ∧
      (stepLine initState (str "-- note")).currentDescription = initState.currentDescription) := by
  refine ⟨C7_flush_rule.2.1 initState (str "local x = 1") (by decide) (by decide) (by decide)
      (by decide) (by decide) (by decide) (by decide), ?_, ?_⟩
  · exact C7_flush_rule.2.2 initState (str "---@param x number") (str "@param x number")
      (str "local x = 1") (by decide) (by decide) (by decide) (by decide) (by decide)
      (by decide) (by decide) (by decide) (by decide)
  · exact C7_flush_rule.1 initState (str "-- note") (by decide) (Or.inr (Or.inl (by decide)))

/-- C1 counterexample: the bare-declaration branches append
unconditionally, so `function foo.bar()` followed by `function foo:bar()`
produces two `bar` entries on class `foo`, not exactly one — the collision
rule does not govern bare `function` lines. -/
theorem C1_method_collision_counterexample :
    (mapGet (parseApiFile (str "function foo.bar()\nfunction foo:bar()")).classes
        (str "foo")).map (fun c => c.fields.map (fun f => (f.name, f.type))) =
      some [(str "bar", str "fun(): void"), (str "bar", str "fun(self: foo): void")] ∧
    ¬((mapGet (parseApiFile (str "function foo.bar()\nfunction foo:bar()")).classes
        (str "foo")).map (fun c => (c.fields.filter (fun f => f.name = str "bar")).length) =
      some 1) := by
  exact ⟨by decide, by decide⟩

/-- C1 amended: the replace-iff-new-has-self-and-old-does-not collision
rule lives in the `@field` function-typed path (insertMethodField): its
three equations are as specified, and the dot-form-then-colon-form scenario
holds for `@field` lines, in both orders. -/
theorem C1_method_collision_amended :
    (∀ (c : ParsedClass) (nm t : Chars) (d : Option Chars) (idx : Nat) (f : MethodField),
      c.fields.findIdx? (fun g => g.name = nm) = some idx →
      c.fields.get? idx = some f →
      fieldHasSelf t = true → fieldHasSelf f.type = false →
      insertMethodField c nm t d = { c with fields := c.fields.set idx ⟨nm, t, d, true⟩ }) ∧
    (∀ (c : ParsedClass) (nm t : Chars) (d : Option Chars) (idx : Nat) (f : MethodField),
      c.fields.findIdx? (fun g => g.name = nm) = some idx →
      c.fields.get? idx = some f →
      (fieldHasSelf t = false ∨ fieldHasSelf f.type = true) →
      insertMethodField c nm t d = c) ∧
    (∀ (c : ParsedClass) (nm t : Chars) (d : Option Chars),
      c.fields.findIdx? (fun g => g.name = nm) = none →
      insertMethodField c nm t d = { c with fields := c.fields ++ [⟨nm, t, d, true⟩] }) ∧
    ((mapGet (parseApiFile (str "---@class foo\n---@field bar fun(): nil\n---@field bar fun(self: foo): nil")).classes
        (str "foo")).map (fun c => c.fields.map (fun f => (f.name, f.type))) =
      some [(str "bar", str "fun(self: foo): nil")]) ∧
    ((mapGet (parseApiFile (str "---@class foo\n---@field bar fun(self: foo): nil\n---@field bar fun(): nil")).classes
        (str "foo")).map (fun c => c.fields.map (fun f => (f.name, f.type))) =
      some [(str "bar", str "fun(self: foo): nil")]) := by
  refine ⟨?_, ?_, ?_, by decide, by decide⟩
  · intro c nm t d idx f hidx hget hnew hold
    simp only [insertMethodField, hidx, hget, hnew, hold, Bool.not_false, Bool.and_true,
      if_true]
  · intro c nm t d idx f hidx hget hcase
    rcases hcase with hnew | hold
    · simp only [insertMethodField, hidx, hget, hnew, Bool.false_and]
      rfl
    · simp only [insertMethodField, hidx, hget, hold, Bool.not_true, Bool.and_false]
      rfl
  · intro c nm t d hidx
    simp only [insertMethodField, hidx]

theorem C1_method_collision_amended_witness :
    insertMethodField ⟨str "foo", [⟨str "bar", str "fun(): nil", none, true⟩], [], []⟩
        (str "bar") (str "fun(self: foo): nil") none =
      ⟨str "foo", [⟨str "bar", str "fun(self: foo): nil", none, true⟩], [], []⟩ ∧
    insertMethodField ⟨str "foo", [⟨str "bar", str "fun(self: foo): nil", none, true⟩], [], []⟩
        (str "bar") (str "fun(): nil") none =
      ⟨str "foo", [⟨str "bar", str "fun(self: foo): nil", none, true⟩], [], []⟩ ∧
    insertMethodField ⟨str "foo", [], [], []⟩ (str "bar") (str "fun(): nil") none =
      ⟨str "foo", [⟨str "bar", str "fun(): nil", none, true⟩], [], []⟩ := by
  refine ⟨?_, ?_, ?_⟩
  · rw [C1_method_collision_amended.1 ⟨str "foo", [⟨str "bar", str "fun(): nil", none, true⟩], [], []⟩
      (str "bar") (str "fun(self: foo): nil") none 0 ⟨str "bar", str "fun(): nil", none, true⟩
      (by decide) (by decide) (by decide) (by decide)]
    decide
  · exact C1_method_collision_amended.2.1
      ⟨str "foo", [⟨str "bar", str "fun(self: foo): nil", none, true⟩], [], []⟩
      (str "bar") (str "fun(): nil") none 0 ⟨str "bar", str "fun(self: foo): nil", none, true⟩
      (by decide) (by decide) (Or.inl (by decide))
  · rw [C1_method_collision_amended.2.2.1 ⟨str "foo", [], [], []⟩
      (str "bar") (str "fun(): nil") none (by decide)]
    rfl

/-- Spec-side transcription of the main-export resolution priority:
configured mainExport first, then detectedMainExport if it names a present
class, else none. -/
def resolveMainExportSpec (config : ModuleConfig)
    (filteredClasses : List (Chars × ParsedClass))
    (detected : Option Chars) : Option Chars :=
  match config.mainExport with
  | some m => some m
  | none =>
    match detected with
    | some d => if mapHas filteredClasses d then some d else none
    | none => none

/-- Spec-side: the global binding is emitted only when declareGlobalVar is
set and a main export is resolved. -/
def globalBindingSpec (dgv : Bool) (me : Option Chars) : List Chars :=
  match me with
  | some x =>
    if dgv then
      [str "// Global variable declaration",
       str "declare const " ++ x ++ str ": " ++ x ++ str ";", []]
    else []
  | none => []

/-- Spec-side: the module binding is emitted only when a main export is
resolved. -/
def moduleBindingSpec (mp : Chars) (me : Option Chars) : List Chars :=
  match me with
  | some x =>
    [str "// Module declaration for imports",
     str "declare module \"" ++ mp ++ str "\" \x7b",
     str "  const _default: " ++ x ++ str ";",
     str "  export = _default;",
     str "\x7d", []]
  | none => []

/-- Spec-side transcription of the emission order: header, then aliases,
enums, interfaces unconditionally, then the global binding only when
declareGlobalVar is set and a main export is resolved, then the module
binding only when a main export is resolved. -/
def generateDeclarationLinesSpec (modulePath : Chars) (config : ModuleConfig)
    (pr : ParseResult) : List Chars :=
  let filteredClasses := filterClasses pr.classes config.filterClasses
  let enumClasses := (filteredClasses.filter (fun p => isEnumLikeClass p.2)).map (·.1)
  let me := resolveMainExportSpec config filteredClasses pr.detectedMainExport
  headerLines config ++
  aliasSection pr.aliases ++
  enumSection filteredClasses enumClasses ++
  interfaceSection filteredClasses enumClasses ++
  globalBindingSpec config.declareGlobalVar me ++
  moduleBindingSpec modulePath me

theorem resolveMainExport_cases (cfg : ModuleConfig) (fc : List (Chars × ParsedClass))
    (det : Option Chars) :
    resolveMainExport cfg fc det = cfg.mainExport ∨ resolveMainExport cfg fc det = det := by
  simp only [resolveMainExport]
  split
  · exact Or.inr rfl
  · exact Or.inl rfl

theorem resolveMainExport_eq_spec (cfg : ModuleConfig) (fc : List (Chars × ParsedClass))
    (det : Option Chars) (hc : cfg.mainExport ≠ some ([] : Chars))
    (hd : det ≠ some ([] : Chars)) :
    resolveMainExport cfg fc det = resolveMainExportSpec cfg fc det := by
  unfold resolveMainExport resolveMainExportSpec
  cases hm : cfg.mainExport with
  | some m =>
    have hm' : m ≠ [] := fun h => hc (by rw [hm, h])
    simp [truthyOpt, hm']
  | none =>
    cases hdet : det with
    | none => simp [truthyOpt]
    | some d =>
      have hd' : d ≠ [] := fun h => hd (by rw [hdet, h])
      by_cases hh : mapHas fc d = true <;> simp [truthyOpt, hd', hh]

theorem globalVarSection_match (me : Option Chars) (dgv : Bool)
    (hne : me ≠ some ([] : Chars)) :
    globalVarSection me dgv = globalBindingSpec dgv me := by
  cases me with
  | none => simp [globalVarSection, globalBindingSpec, truthyOpt]
  | some x =>
    have hx : x ≠ [] := fun h => hne (by rw [h])
    by_cases hdgv : dgv = true <;>
      simp [globalVarSection, globalBindingSpec, truthyOpt, hx, hdgv]

theorem moduleSection_match (mp : Chars) (me : Option Chars)
    (hne : me ≠ some ([] : Chars)) :
    moduleSection mp me = moduleBindingSpec mp me := by
  cases me with
  | none => simp [moduleSection, moduleBindingSpec, truthyOpt]
  | some x =>
    have hx : x ≠ [] := fun h => hne (by rw [h])
    simp [moduleSection, moduleBindingSpec, truthyOpt, hx]

/-- C6: provided neither the configured mainExport nor the detected one is
the empty string (which the source treats as absent via JS truthiness), the
emitted lines equal the spec-side transcription: header, aliases, enums,
interfaces in fixed order, then the global binding only when
declareGlobalVar is set and an export resolves, then the module binding
only when an export resolves, with priority configured > detected-if-
present > none; and steps 1-3 are emitted even when nothing resolves. -/
theorem C6_emission_order (modulePath : Chars) (cfg : ModuleConfig) (pr : ParseResult)
    (hc : cfg.mainExport ≠ some ([] : Chars))
    (hd : pr.detectedMainExport ≠ some ([] : Chars)) :
    generateDeclarationLines modulePath cfg pr = generateDeclarationLinesSpec modulePath cfg pr ∧
    (resolveMainExport cfg (filterClasses pr.classes cfg.filterClasses) pr.detectedMainExport
        = none →
      generateDeclarationLines modulePath cfg pr =
        headerLines cfg ++ aliasSection pr.aliases ++
        enumSection (filterClasses pr.classes cfg.filterClasses)
          (((filterClasses pr.classes cfg.filterClasses).filter
            (fun p => isEnumLikeClass p.2)).map (·.1)) ++
        interfaceSection (filterClasses pr.classes cfg.filterClasses)
          (((filterClasses pr.classes cfg.filterClasses).filter
            (fun p => isEnumLikeClass p.2)).map (·.1))) := by
  have hne : resolveMainExport cfg (filterClasses pr.classes cfg.filterClasses)
      pr.detectedMainExport ≠ some ([] : Chars) := by
    rcases resolveMainExport_cases cfg (filterClasses pr.classes cfg.filterClasses)
      pr.detectedMainExport with h | h
    · rw [h]; exact hc
    · rw [h]; exact hd
  constructor
  · simp only [generateDeclarationLines, generateDeclarationLinesSpec]
    rw [← resolveMainExport_eq_spec cfg (filterClasses pr.classes cfg.filterClasses)
      pr.detectedMainExport hc hd]
    rw [globalVarSection_match _ _ hne, moduleSection_match _ _ hne]
  · intro h0
    simp only [generateDeclarationLines, h0]
    simp [globalVarSection, moduleSection, truthyOpt]

theorem C6_emission_order_witness :
    (generateDeclarationLines (str "m") ⟨str "f.lua", some (str "foo"), none, true⟩
        ⟨[(str "foo", ⟨str "foo", [], [], []⟩)], [], none⟩ =
      generateDeclarationLinesSpec (str "m") ⟨str "f.lua", some (str "foo"), none, true⟩
        ⟨[(str "foo", ⟨str "foo", [], [], []⟩)], [], none⟩) ∧
    generateDeclarationLines (str "m") ⟨str "f.lua", some (str "foo"), none, true⟩
        ⟨[(str "foo", ⟨str "foo", [], [], []⟩)], [], none⟩ =
      [str "// Auto-generated from Sylvanas API", str "// Source: f.lua",
       str "// Do not edit manually", [],
       str "interface foo \x7b", str "\x7d", [],
       str "// Global variable declaration", str "declare const foo: foo;", [],
       str "// Module declaration for imports", str "declare module \"m\" \x7b",
       str "  const _default: foo;", str "  export = _default;", str "\x7d", []] := by
  refine ⟨(C6_emission_order (str "m") ⟨str "f.lua", some (str "foo"), none, true⟩
    ⟨[(str "foo", ⟨str "foo", [], [], []⟩)], [], none⟩ (by decide) (by decide)).1, by decide⟩

